import Mathlib

/-!
Verification development for the `cdo` coding-style learner.

The definitions below are a shallow embedding of the JavaScript sources:

* `src/core/infer.js`   - confidence-gated rule inference (`binaryRule`,
  `densityRule`, `inferIndentUnit`, `inferLineWidth`, `inferRules`);
* `src/core/llm-augment.js` - external rule augmentation (`normalizeValue`,
  `clamp01`, `shouldReplace`, per-suggestion processing);
* `src/core/parse.js`   - the member-chain continuation classifier of
  `extractFileSignals`;
* `src/apply/style-normalization.js` - node signatures, the replacement
  applier and the style normalizers.

JavaScript numbers are modelled as exact rationals (`ℚ`) or naturals/integers
where the code only ever holds integral counts and offsets; JavaScript strings
are modelled as `List Char`; `null`/`undefined` become `Option`; the external
`@babel/parser` is passed in as an explicit `parse` function parameter.
-/

/-- Status field of an inferred rule: `'enforced' | 'undetermined'`. -/
inductive RuleStatus where
  | enforced
  | undetermined
deriving DecidableEq, Repr

/-- Provenance field: `'deterministic' | 'llm_augmented'`. -/
inductive Provenance where
  | deterministic
  | llm_augmented
deriving DecidableEq, Repr

/-- `InferredRule<T>` from `src/types.js`: `value` is `T | null`. -/
structure InferredRule (T : Type) where
  value : Option T
  status : RuleStatus
  confidence : ℚ
  evidenceCount : ℕ
  provenance : Provenance
  autoFixSafe : Bool
deriving Repr, DecidableEq

/-- `binaryRule` from `src/core/infer.js` lines 22-59.  The JS object
argument `{yes, no, yesValue, noValue, minEvidence, minConfidence,
autoFixSafe, provenance}` is passed positionally. -/
def binaryRule {T : Type} (yes no : ℕ) (yesValue noValue : T)
    (minEvidence : ℕ) (minConfidence : ℚ)
    (autoFixSafe : Bool) (provenance : Provenance) : InferredRule T :=
  let total := yes + no
  if total = 0 then
    { value := none, status := .undetermined, confidence := 0, evidenceCount := 0,
      provenance := provenance, autoFixSafe := autoFixSafe }
  else
    let winner := if yes ≥ no then yes else no
    let value := if yes ≥ no then yesValue else noValue
    let confidence : ℚ := (winner : ℚ) / (total : ℚ)
    let status : RuleStatus :=
      if minEvidence ≤ winner ∧ minConfidence ≤ confidence then .enforced else .undetermined
    { value := if status = .enforced then some value else none,
      status := status, confidence := confidence, evidenceCount := winner,
      provenance := provenance, autoFixSafe := autoFixSafe }

/-- `gcd` from `src/core/infer.js` lines 61-70: the `while` loop is Euclid's
algorithm and the final `return x || 1` maps `0` to `1`.  Both call sites pass
positive naturals, so `Math.abs` is the identity. -/
def gcdJs (a b : ℕ) : ℕ :=
  let g := Nat.gcd a b
  if g = 0 then 1 else g

/-- `inferIndentUnit` from `src/core/infer.js` lines 76-102.  The histogram
`Record<string, number>` arrives as an entry list `(size, count)`; the
`Number.parseInt`/`Number.isFinite` step is reflected by the `ℕ` typing, the
`size > 0 && count > 0` filter is kept verbatim. -/
def inferIndentUnit (entries : List (ℕ × ℕ)) : ℕ :=
  let values := entries.filter (fun e => decide (0 < e.1 ∧ 0 < e.2))
  match values with
  | [] => 2
  | v :: rest =>
    let unit := rest.foldl (fun u e => gcdJs u e.1) v.1
    if 2 ≤ unit ∧ unit ≤ 8 then unit
    else
      let best := [2, 4, 8].foldl
        (fun best c =>
          let score : ℤ :=
            ((values.filter (fun e => decide (e.1 % c = 0))).foldl (fun s e => s + e.2) 0 : ℕ)
          if best.2 < score then (c, score) else best)
        ((2, -1) : ℕ × ℤ)
      if 0 < best.2 then best.1
      else (values.map (fun e => e.1)).foldl min v.1

/-- `densityRule` from `src/core/infer.js` lines 110-135. -/
def densityRule (blankLines totalLines : ℕ)
    (minEvidence : ℕ) (minConfidence : ℚ) : InferredRule String :=
  if totalLines = 0 then
    { value := none, status := .undetermined, confidence := 0, evidenceCount := 0,
      provenance := .deterministic, autoFixSafe := false }
  else
    let density : ℚ := (blankLines : ℚ) / (totalLines : ℚ)
    let value := if density ≤ (0.15 : ℚ) then "compact" else "spacious"
    let confidence : ℚ :=
      1 - min (|density - (if value = "compact" then (0.12 : ℚ) else (0.25 : ℚ))|) (0.2 : ℚ)
    let status : RuleStatus :=
      if minEvidence ≤ totalLines ∧ minConfidence ≤ confidence then .enforced else .undetermined
    { value := if status = .enforced then some value else none,
      status := status, confidence := confidence, evidenceCount := totalLines,
      provenance := .deterministic, autoFixSafe := false }

/-- `inferLineWidth` from `src/core/infer.js` lines 143-173.  `nonBlankLines`
is computed by the caller as a JS subtraction, hence `ℤ`. -/
def inferLineWidth (maxLineLength : ℕ) (nonBlankLines : ℤ)
    (minEvidence : ℕ) (minConfidence : ℚ) : InferredRule ℕ :=
  let evidenceCount : ℕ := nonBlankLines.toNat
  if maxLineLength = 0 ∨ evidenceCount = 0 then
    { value := none, status := .undetermined, confidence := 0, evidenceCount := evidenceCount,
      provenance := .deterministic, autoFixSafe := false }
  else
    let candidates : List ℕ := [80, 90, 100, 110, 120, 140, 160]
    let target := max 80 (min maxLineLength 160)
    let value := (candidates.find? (fun c => decide (target ≤ c))).getD 160
    let confidence : ℚ := max (0.5 : ℚ) (min 1 ((maxLineLength : ℚ) / (value : ℚ)))
    let status : RuleStatus :=
      if minEvidence ≤ evidenceCount ∧ minConfidence ≤ confidence then .enforced
      else .undetermined
    { value := if status = .enforced then some value else none,
      status := status, confidence := confidence, evidenceCount := evidenceCount,
      provenance := .deterministic, autoFixSafe := false }

/-- The `indentationSize` rule object built inline in `inferProfile`
(`src/core/infer.js` lines 362-372). -/
def indentationSizeRule (indentationKind : InferredRule String)
    (indentSpaceSizes : List (ℕ × ℕ)) (indentSpaceLines : ℕ) : InferredRule ℕ :=
  let cond := indentationKind.status = .enforced ∧ indentationKind.value = some "space"
  { value := if cond then some (inferIndentUnit indentSpaceSizes) else none,
    status := if cond then .enforced else .undetermined,
    confidence := indentationKind.confidence,
    evidenceCount := indentSpaceLines,
    provenance := .deterministic,
    autoFixSafe := true }

/-- The counter fields of `AggregateSignals` that `inferProfile` reads. -/
structure AggregateSignals where
  lineCommentSpace : ℕ
  lineCommentTight : ℕ
  functionsWithJsdoc : ℕ
  functionsTotal : ℕ
  commentFramedBlocks : ℕ
  commentPlainBlocks : ℕ
  trailingInlineCommentAlignedPairs : ℕ
  trailingInlineCommentUnalignedPairs : ℕ
  functionNamesSingle : ℕ
  functionNamesMulti : ℕ
  functionExprNamed : ℕ
  functionExprAnonymous : ℕ
  ifWithoutBraces : ℕ
  ifWithBraces : ℕ
  guardClauseFunctions : ℕ
  nonGuardClauseFunctions : ℕ
  quotesSingle : ℕ
  quotesDouble : ℕ
  semicolonsYes : ℕ
  semicolonsNo : ℕ
  trailingCommaYes : ℕ
  trailingCommaNo : ℕ
  variableDeclarationCommaLeading : ℕ
  variableDeclarationCommaTrailing : ℕ
  yodaConditionsYes : ℕ
  yodaConditionsNo : ℕ
  ternaryMultilineLeading : ℕ
  ternaryMultilineTrailing : ℕ
  indentSpaceLines : ℕ
  indentTabLines : ℕ
  indentSpaceSizes : List (ℕ × ℕ)
  switchCaseIndented : ℕ
  switchCaseFlat : ℕ
  switchCaseBreakMatchCase : ℕ
  switchCaseBreakIndented : ℕ
  multilineCallArgumentCompact : ℕ
  multilineCallArgumentExpanded : ℕ
  memberExprAlignedFiles : ℕ
  memberExprIndentedFiles : ℕ
  memberExprAligned : ℕ
  memberExprIndented : ℕ
  blankLines : ℕ
  totalLines : ℕ
  blankLineBeforeReturnYes : ℕ
  blankLineBeforeReturnNo : ℕ
  blankLineBeforeIfYes : ℕ
  blankLineBeforeIfNo : ℕ
  lineLengthMax : ℕ
  importSortedGroups : ℕ
  importUnsortedGroups : ℕ

/-- `sparseEvidence` from `src/core/infer.js` line 203. -/
def sparseEvidence (minEvidence : ℕ) : ℕ := max 2 (minEvidence / 3)

/-- `ultraSparseEvidence` from `src/core/infer.js` line 204. -/
def ultraSparseEvidence (minEvidence : ℕ) : ℕ := max 2 (minEvidence / 5)

/-- The evidence floor passed to the `multilineTernaryOperatorPlacement`
binary rule (`src/core/infer.js` line 345): `Math.max(2, Math.floor(minEvidence / 10))`. -/
def ternaryEvidenceFloor (minEvidence : ℕ) : ℕ := max 2 (minEvidence / 10)

/-- The evidence floor used by the switch-case, switch-break and imports
rules (`src/core/infer.js` lines 379, 390, 463). -/
def quarterEvidenceFloor (minEvidence : ℕ) : ℕ := max 2 (minEvidence / 4)

/-- The per-dimension rules built by `inferProfile` (`src/core/infer.js`
lines 206-467); the surrounding profile metadata is not modelled. -/
structure ProfileRules where
  commentsLine : InferredRule String
  jsdoc : InferredRule Bool
  commentBlockFraming : InferredRule String
  trailingInlineCommentAlignment : InferredRule String
  fnWords : InferredRule String
  fnExpressionNaming : InferredRule String
  braces : InferredRule String
  guardClauses : InferredRule String
  quotes : InferredRule String
  semicolons : InferredRule String
  trailingCommas : InferredRule String
  variableDeclarationCommaPlacement : InferredRule String
  yodaConditions : InferredRule String
  multilineTernaryOperatorPlacement : InferredRule String
  indentationKind : InferredRule String
  indentationSize : InferredRule ℕ
  switchCaseIndentation : InferredRule String
  switchCaseBreakIndentation : InferredRule String
  multilineCallArgumentLayout : InferredRule String
  memberExpressionIndentation : InferredRule String
  blankLineDensity : InferredRule String
  blankLineBeforeReturn : InferredRule String
  blankLineBeforeIf : InferredRule String
  lineWidth : InferredRule ℕ
  importsOrdering : InferredRule String

/-- Rule construction of `inferProfile` (`src/core/infer.js` lines 189-467).
Metadata such as `profileId`, `createdAt`, evidence summaries and the
confidence summary is outside the claims and not modelled. -/
def inferRules (aggregate : AggregateSignals) (minEvidence : ℕ)
    (minConfidence : ℚ) : ProfileRules :=
  let provenance := Provenance.deterministic
  let sparse := sparseEvidence minEvidence
  let ultraSparse := ultraSparseEvidence minEvidence
  let indentationKind :=
    binaryRule aggregate.indentSpaceLines aggregate.indentTabLines "space" "tab"
      minEvidence minConfidence true provenance
  let memberExpressionFileVotes :=
    aggregate.memberExprAlignedFiles + aggregate.memberExprIndentedFiles
  let memberExpressionFileMinEvidence := if minEvidence ≤ 2 then 1 else 2
  let memberAlignedEvidence :=
    if 0 < memberExpressionFileVotes then aggregate.memberExprAlignedFiles
    else aggregate.memberExprAligned
  let memberIndentedEvidence :=
    if 0 < memberExpressionFileVotes then aggregate.memberExprIndentedFiles
    else aggregate.memberExprIndented
  { commentsLine :=
      binaryRule aggregate.lineCommentSpace aggregate.lineCommentTight
        "space-after-slashes" "tight" minEvidence minConfidence true provenance
    jsdoc :=
      binaryRule aggregate.functionsWithJsdoc
        (aggregate.functionsTotal - aggregate.functionsWithJsdoc)
        true false sparse minConfidence false provenance
    commentBlockFraming :=
      binaryRule aggregate.commentFramedBlocks aggregate.commentPlainBlocks
        "framed" "plain" sparse minConfidence false provenance
    trailingInlineCommentAlignment :=
      binaryRule aggregate.trailingInlineCommentAlignedPairs
        aggregate.trailingInlineCommentUnalignedPairs
        "aligned" "single-space" ultraSparse minConfidence false provenance
    fnWords :=
      binaryRule aggregate.functionNamesSingle aggregate.functionNamesMulti
        "single-word" "multi-word" minEvidence minConfidence false provenance
    fnExpressionNaming :=
      binaryRule aggregate.functionExprNamed aggregate.functionExprAnonymous
        "named" "allow-anonymous" sparse minConfidence false provenance
    braces :=
      binaryRule aggregate.ifWithoutBraces aggregate.ifWithBraces
        "omit" "require" minEvidence minConfidence false provenance
    guardClauses :=
      binaryRule aggregate.guardClauseFunctions aggregate.nonGuardClauseFunctions
        "prefer" "neutral" sparse minConfidence false provenance
    quotes :=
      binaryRule aggregate.quotesSingle aggregate.quotesDouble
        "single" "double" minEvidence minConfidence false provenance
    semicolons :=
      binaryRule aggregate.semicolonsYes aggregate.semicolonsNo
        "always" "never" minEvidence minConfidence false provenance
    trailingCommas :=
      binaryRule aggregate.trailingCommaYes aggregate.trailingCommaNo
        "always-multiline" "never" minEvidence minConfidence false provenance
    variableDeclarationCommaPlacement :=
      binaryRule aggregate.variableDeclarationCommaLeading
        aggregate.variableDeclarationCommaTrailing
        "leading" "trailing" sparse minConfidence false provenance
    yodaConditions :=
      binaryRule aggregate.yodaConditionsYes aggregate.yodaConditionsNo
        "always" "never" sparse minConfidence false provenance
    multilineTernaryOperatorPlacement :=
      binaryRule aggregate.ternaryMultilineLeading aggregate.ternaryMultilineTrailing
        "leading" "trailing" (ternaryEvidenceFloor minEvidence) minConfidence false provenance
    indentationKind := indentationKind
    indentationSize :=
      indentationSizeRule indentationKind aggregate.indentSpaceSizes
        aggregate.indentSpaceLines
    switchCaseIndentation :=
      binaryRule aggregate.switchCaseIndented aggregate.switchCaseFlat
        "indent" "flat" (quarterEvidenceFloor minEvidence) minConfidence true provenance
    switchCaseBreakIndentation :=
      binaryRule aggregate.switchCaseBreakMatchCase aggregate.switchCaseBreakIndented
        "match-case" "indent" (quarterEvidenceFloor minEvidence)
        (max (0.55 : ℚ) (minConfidence - (0.2 : ℚ))) true provenance
    multilineCallArgumentLayout :=
      binaryRule aggregate.multilineCallArgumentCompact
        aggregate.multilineCallArgumentExpanded
        "compact" "expanded" sparse minConfidence false provenance
    memberExpressionIndentation :=
      binaryRule memberAlignedEvidence memberIndentedEvidence "aligned" "indented"
        (if 0 < memberExpressionFileVotes then memberExpressionFileMinEvidence
         else quarterEvidenceFloor minEvidence)
        (if 0 < memberExpressionFileVotes then max (0.6 : ℚ) (minConfidence - (0.15 : ℚ))
         else minConfidence)
        false provenance
    blankLineDensity :=
      densityRule aggregate.blankLines aggregate.totalLines minEvidence minConfidence
    blankLineBeforeReturn :=
      binaryRule aggregate.blankLineBeforeReturnYes aggregate.blankLineBeforeReturnNo
        "always" "never" sparse minConfidence false provenance
    blankLineBeforeIf :=
      binaryRule aggregate.blankLineBeforeIfYes aggregate.blankLineBeforeIfNo
        "always" "never" sparse minConfidence false provenance
    lineWidth :=
      inferLineWidth aggregate.lineLengthMax
        ((aggregate.totalLines : ℤ) - (aggregate.blankLines : ℤ))
        minEvidence minConfidence
    importsOrdering :=
      binaryRule aggregate.importSortedGroups aggregate.importUnsortedGroups
        "alphabetical" "none" (quarterEvidenceFloor minEvidence) minConfidence
        false provenance }

/-- A JavaScript number as seen by `Number.isFinite` / `Number.isInteger`:
either a finite value (modelled exactly as a rational) or a non-finite one. -/
inductive JsNum where
  | fin (q : ℚ)
  | nan
  | inf
  | ninf
deriving DecidableEq, Repr

/-- A primitive JavaScript value as carried by an augmentation suggestion and
by the `values` arrays of `KNOWN_RULES` in `src/core/llm-augment.js`. -/
inductive JsVal where
  | vstr (s : String)
  | vbool (b : Bool)
  | vnum (n : JsNum)
  | vnull
deriving DecidableEq, Repr

/-- One entry of the `KNOWN_RULES` table of `src/core/llm-augment.js`. -/
structure RuleDescriptor where
  values : List JsVal
  autoFixSafe : Bool
deriving DecidableEq, Repr

/-- The `KNOWN_RULES` table (`src/core/llm-augment.js` lines 12-113). -/
def knownRules : List (String × RuleDescriptor) :=
  [ ("comments.lineCommentSpacing",
      ⟨[.vstr "space-after-slashes", .vstr "tight"], true⟩),
    ("comments.preferJsdocForFunctions", ⟨[.vbool true, .vbool false], false⟩),
    ("comments.commentBlockFraming", ⟨[.vstr "framed", .vstr "plain"], false⟩),
    ("comments.trailingInlineCommentAlignment",
      ⟨[.vstr "aligned", .vstr "single-space"], false⟩),
    ("naming.functionWordCountPreference",
      ⟨[.vstr "single-word", .vstr "multi-word"], false⟩),
    ("naming.functionExpressionNamingPreference",
      ⟨[.vstr "named", .vstr "allow-anonymous"], false⟩),
    ("controlFlow.singleLineIfBraces", ⟨[.vstr "omit", .vstr "require"], false⟩),
    ("controlFlow.guardClauses", ⟨[.vstr "prefer", .vstr "neutral"], false⟩),
    ("syntax.quotes", ⟨[.vstr "single", .vstr "double"], false⟩),
    ("syntax.semicolons", ⟨[.vstr "always", .vstr "never"], false⟩),
    ("syntax.trailingCommas", ⟨[.vstr "always-multiline", .vstr "never"], false⟩),
    ("syntax.variableDeclarationCommaPlacement",
      ⟨[.vstr "leading", .vstr "trailing"], false⟩),
    ("syntax.yodaConditions", ⟨[.vstr "always", .vstr "never"], true⟩),
    ("syntax.multilineTernaryOperatorPlacement",
      ⟨[.vstr "leading", .vstr "trailing"], false⟩),
    ("syntax.lineWidth", ⟨[], false⟩),
    ("whitespace.indentationKind", ⟨[.vstr "space", .vstr "tab"], true⟩),
    ("whitespace.indentationSize", ⟨[], true⟩),
    ("whitespace.switchCaseIndentation", ⟨[.vstr "indent", .vstr "flat"], true⟩),
    ("whitespace.switchCaseBreakIndentation",
      ⟨[.vstr "match-case", .vstr "indent"], true⟩),
    ("whitespace.memberExpressionIndentation",
      ⟨[.vstr "aligned", .vstr "indented"], false⟩),
    ("whitespace.multilineCallArgumentLayout",
      ⟨[.vstr "compact", .vstr "expanded"], false⟩),
    ("whitespace.blankLineDensity", ⟨[.vstr "compact", .vstr "spacious"], false⟩),
    ("whitespace.blankLineBeforeReturn", ⟨[.vstr "always", .vstr "never"], false⟩),
    ("whitespace.blankLineBeforeIf", ⟨[.vstr "always", .vstr "never"], false⟩),
    ("imports.ordering", ⟨[.vstr "alphabetical", .vstr "none"], false⟩) ]

/-- `KNOWN_RULES[rulePath]`. -/
def knownRuleFor (rulePath : String) : Option RuleDescriptor :=
  (knownRules.find? (fun e => e.1 = rulePath)).map (fun e => e.2)

/-- `clamp01` from `src/core/llm-augment.js` lines 120-125. -/
def clamp01 (value : JsNum) : ℚ :=
  match value with
  | .fin q => if q < 0 then 0 else if 1 < q then 1 else q
  | _ => 0

/-- `Math.round` on a finite JS number: round half towards positive infinity. -/
def jsRound (q : ℚ) : ℤ := ⌊q + 1 / 2⌋

/-- `normalizeValue` from `src/core/llm-augment.js` lines 182-191. -/
def normalizeValue (value : JsVal) (descriptor : RuleDescriptor) : Option JsVal :=
  if descriptor.values = [] then
    match value with
    | .vnum (.fin q) => some (.vnum (.fin ((max 0 (jsRound q) : ℤ) : ℚ)))
    | _ => none
  else if descriptor.values.contains value then some value else none

/-- `shouldReplace` from `src/core/llm-augment.js` lines 171-176. -/
def shouldReplace (existing : Option (InferredRule JsVal))
    (next : InferredRule JsVal) : Bool :=
  match existing with
  | none => true
  | some ex =>
    if ex.status ≠ .enforced ∧ next.status = .enforced then true
    else if ex.status = next.status ∧ ex.confidence + (0.05 : ℚ) ≤ next.confidence then true
    else false

/-- One suggestion object `{value?, confidence?, evidenceCount?}` submitted to
the augmentation path; `none` fields model absent (`undefined`) properties. -/
structure LlmRuleSuggestion where
  value : Option JsVal
  confidence : Option JsNum
  evidenceCount : Option JsNum
deriving Repr

/-- `Number.isInteger` on an optional JS number. -/
def jsIsInteger (n : Option JsNum) : Bool :=
  match n with
  | some (.fin q) => q.den = 1
  | _ => false

/-- The `nextRule` object built for one suggestion in
`maybeAugmentProfileWithLlm` (`src/core/llm-augment.js` lines 218-239),
assuming the value already normalized. -/
def llmNextRule (normalizedValue : JsVal) (suggestion : LlmRuleSuggestion)
    (descriptor : RuleDescriptor) (minEvidence : ℕ) (minConfidence : ℚ)
    (sampledFilesLength : ℕ) : InferredRule JsVal :=
  let confidence := clamp01 (suggestion.confidence.getD (.fin 0))
  let evidenceCount : ℕ :=
    if jsIsInteger suggestion.evidenceCount then
      match suggestion.evidenceCount with
      | some (.fin q) => (max 0 q.num).toNat
      | _ => sampledFilesLength
    else sampledFilesLength
  let status : RuleStatus :=
    if minEvidence ≤ evidenceCount ∧ minConfidence ≤ confidence then .enforced
    else .undetermined
  { value := if status = .enforced then some normalizedValue else none,
    status := status, confidence := confidence, evidenceCount := evidenceCount,
    provenance := .llm_augmented, autoFixSafe := descriptor.autoFixSafe }

/-- The body of the suggestion loop in `maybeAugmentProfileWithLlm`
(`src/core/llm-augment.js` lines 213-245) for one `(rulePath, rawSuggestion)`
entry: returns the rule written into the profile, or `none` when the entry is
skipped.  `rawSuggestion = none` models a non-object suggestion value;
`currentRule` is what `readRule` found in the profile. -/
def augmentDecision (rulePath : String) (rawSuggestion : Option LlmRuleSuggestion)
    (currentRule : Option (InferredRule JsVal)) (minEvidence : ℕ)
    (minConfidence : ℚ) (sampledFilesLength : ℕ) : Option (InferredRule JsVal) :=
  match knownRuleFor rulePath with
  | none => none
  | some descriptor =>
    match rawSuggestion with
    | none => none
    | some suggestion =>
      match normalizeValue (suggestion.value.getD .vnull) descriptor with
      | none => none
      | some normalizedValue =>
        let nextRule :=
          llmNextRule normalizedValue suggestion descriptor minEvidence minConfidence
            sampledFilesLength
        if shouldReplace currentRule nextRule then some nextRule else none

/-- JavaScript `\s` for characters that can occur inside one line (the code
below only ever applies it to newline-free slices, but `\n` is included for
faithfulness to `String.prototype.trim` and `\s`). -/
def isJsSpace (c : Char) : Bool :=
  c = ' ' ∨ c = '\t' ∨ c = '\n' ∨ c = '\r' ∨ c = '\x0b' ∨ c = '\x0c'

/-- The fields of a `MemberExpression` node read by the member-chain visitor
of `extractFileSignals` (`src/core/parse.js` lines 656-677). -/
structure MemberNodeSignal where
  objectStartLine : Option ℕ
  objectStartColumn : Option ℕ
  memberLine : Option ℕ
deriving Repr

/-- The guard part of the member-chain visitor: returns the continuation
column and the object start column once every check up to line 674 of
`src/core/parse.js` has passed. -/
def memberContinuationContext (lines : List (List Char))
    (node : MemberNodeSignal) : Option (ℕ × ℕ) :=
  match node.objectStartLine, node.objectStartColumn, node.memberLine with
  | some objectStartLine, some objectStartColumn, some memberLine =>
    if memberLine ≤ objectStartLine then none
    else
      match lines.get? (memberLine - 1) with
      | none => none
      | some continuation =>
        if continuation = [] then none
        else if (continuation.dropWhile isJsSpace).head? ≠ some '.' then none
        else some ((continuation.takeWhile isJsSpace).length, objectStartColumn)
  | _, _, _ => none

/-- The member-chain continuation classifier of `extractFileSignals`
(`src/core/parse.js` lines 656-677): `some true` bumps `memberExprAligned`,
`some false` bumps `memberExprIndented`, `none` records nothing. -/
def classifyMemberContinuation (lines : List (List Char))
    (node : MemberNodeSignal) : Option Bool :=
  match node.objectStartLine, node.objectStartColumn, node.memberLine with
  | some objectStartLine, some objectStartColumn, some memberLine =>
    if memberLine ≤ objectStartLine then none
    else
      match lines.get? (memberLine - 1) with
      | none => none
      | some continuation =>
        if continuation = [] then none
        else if (continuation.dropWhile isJsSpace).head? ≠ some '.' then none
        else
          let continuationColumn := (continuation.takeWhile isJsSpace).length
          some (decide (continuationColumn ≤ objectStartColumn))
  | _, _, _ => none

/-- Source text, modelled as a character list. -/
abbrev Src := List Char

/-- `String.prototype.slice(a, b)` for the in-range shapes used by the
normalizers (`0 ≤ a`, clamping at the ends, empty when `b ≤ a`). -/
def jsSlice (s : Src) (a b : ℕ) : Src := (s.take b).drop a

/-- `includes`/regex-literal substring test (`//`, `/*`, `?.`, `.`). -/
def hasSub (pat : Src) : Src → Bool
  | [] => pat.isPrefixOf []
  | c :: rest => pat.isPrefixOf (c :: rest) || hasSub pat rest

/-- `lineOffsets` from `src/apply/style-normalization.js` lines 44-51. -/
def lineOffsets (source : Src) : List ℕ :=
  let rec go (cs : Src) (i : ℕ) : List ℕ :=
    match cs with
    | [] => []
    | c :: rest => (if c = '\n' then [i + 1] else []) ++ go rest (i + 1)
  0 :: go source 0

/-- `source.split('\n')`. -/
def splitLines (source : Src) : List Src :=
  source.splitOn '\n'

/-- `lines.join('\n')`. -/
def joinLines (lines : List Src) : Src :=
  (lines.intersperse ['\n']).flatten

/-- Indent rendering (`indentForColumn`, `src/apply/style-normalization.js`
lines 58-65); `indentSize || 2` maps `0` to `2`. -/
inductive IndentKind where
  | space
  | tab
deriving DecidableEq, Repr

/-- `indentForColumn` from `src/apply/style-normalization.js` lines 58-65. -/
def indentForColumn (column : ℕ) (indentKind : IndentKind) (indentSize : ℕ) : Src :=
  if indentKind ≠ .tab then List.replicate column ' '
  else
    let size := max 1 (if indentSize = 0 then 2 else indentSize)
    let tabs := column / size
    let spaces := column % size
    List.replicate tabs '\t' ++ List.replicate spaces ' '

/-- The `Math.max(1, Math.floor(indentSize || 2))` step used throughout the
normalizers. -/
def indentStepOf (indentSize : ℕ) : ℕ :=
  max 1 (if indentSize = 0 then 2 else indentSize)

/-- A `TextReplacement` `{start, end, text}`; `stop` models the JS `end`
field.  Offsets are integers because `applyReplacements` explicitly guards
against negative `start`. -/
structure Replacement where
  start : ℤ
  stop : ℤ
  text : Src
deriving DecidableEq, Repr

/-- The descending-start comparison used by
`replacements.sort((a, b) => b.start - a.start)`. -/
def repGE (a b : Replacement) : Prop := b.start ≤ a.start

instance : DecidableRel repGE := fun a b => by
  unfold repGE; infer_instance

instance : IsTotal Replacement repGE :=
  ⟨fun a b => le_total b.start a.start⟩

instance : IsTrans Replacement repGE :=
  ⟨fun _ _ _ h1 h2 => le_trans h2 h1⟩

/-- Validity test of one replacement inside the application loop
(`src/apply/style-normalization.js` line 77): skipped when `start < 0` or
`end < start`. -/
def validReplacement (r : Replacement) : Bool :=
  decide (0 ≤ r.start ∧ r.start ≤ r.stop)

/-- One step of the application loop: splice `r.text` over `[start, end)`. -/
def applyOneReplacement (next : Src) (r : Replacement) : Src :=
  if validReplacement r then
    next.take r.start.toNat ++ r.text ++ next.drop r.stop.toNat
  else next

/-- `applyReplacements` from `src/apply/style-normalization.js` lines 71-85:
stable sort by descending `start` (JS `Array.prototype.sort` is stable, as is
`List.insertionSort`), then splice each surviving range right-to-left. -/
def applyReplacements (source : Src) (replacements : List Replacement) : Src :=
  match replacements with
  | [] => source
  | _ =>
    (List.insertionSort repGE replacements).foldl applyOneReplacement source

/-- `dedentIndent` from `src/apply/style-normalization.js` lines 91-104;
`indent` is always a run of spaces/tabs here, so the guarded scan removes
`min count indent.length` characters. -/
def dedentIndent (indent : Src) (count : ℕ) : Src :=
  if count = 0 ∨ indent = [] then indent
  else
    let rec removable (cs : Src) (budget : ℕ) : ℕ :=
      match cs, budget with
      | c :: rest, b + 1 =>
        if c = ' ' ∨ c = '\t' then 1 + removable rest b else 0
      | _, _ => 0
    indent.drop (removable indent count)

mutual

/-- A JSON-serializable JavaScript value, as consumed by
`sanitizeForSignature`/`JSON.stringify` in `src/apply/style-normalization.js`
lines 110-141.  Object fields keep their insertion order.  Literal numeric
values are modelled as integers; floating point is outside the claims. -/
inductive Json where
  | jnull
  | jbool (b : Bool)
  | jnum (n : ℤ)
  | jstr (s : List Char)
  | jarr (items : JsonItems)
  | jobj (fields : JsonFields)

/-- The elements of a JSON array, in order. -/
inductive JsonItems where
  | nil
  | cons (head : Json) (tail : JsonItems)

/-- The fields of a JSON object, in insertion order. -/
inductive JsonFields where
  | nil
  | cons (key : List Char) (value : Json) (tail : JsonFields)

end

/-- The field names dropped by `sanitizeForSignature`
(`src/apply/style-normalization.js` lines 119-128). -/
def bannedKey (k : List Char) : Bool :=
  k = "start".data ∨ k = "end".data ∨ k = "range".data ∨ k = "loc".data ∨
  k = "extra".data ∨ k = "leadingComments".data ∨ k = "trailingComments".data ∨
  k = "innerComments".data

mutual

/-- `sanitizeForSignature` from `src/apply/style-normalization.js`
lines 110-134: recursively drop the banned keys, keep everything else. -/
def sanitize : Json → Json
  | .jnull => .jnull
  | .jbool b => .jbool b
  | .jnum n => .jnum n
  | .jstr s => .jstr s
  | .jarr items => .jarr (sanitizeItems items)
  | .jobj fields => .jobj (sanitizeFields fields)

/-- `sanitizeForSignature` on an array: `value.map(sanitizeForSignature)`. -/
def sanitizeItems : JsonItems → JsonItems
  | .nil => .nil
  | .cons hd tl => .cons (sanitize hd) (sanitizeItems tl)

/-- `sanitizeForSignature` on object entries: skip banned keys, recurse on
the rest, preserving order. -/
def sanitizeFields : JsonFields → JsonFields
  | .nil => .nil
  | .cons k v tl =>
    if bannedKey k then sanitizeFields tl
    else .cons k (sanitize v) (sanitizeFields tl)

end

/-- A hexadecimal digit character, for `\u00XX` escapes. -/
def hexChar (n : ℕ) : Char :=
  match n with
  | 0 => '0' | 1 => '1' | 2 => '2' | 3 => '3' | 4 => '4'
  | 5 => '5' | 6 => '6' | 7 => '7' | 8 => '8' | 9 => '9'
  | 10 => 'a' | 11 => 'b' | 12 => 'c' | 13 => 'd' | 14 => 'e'
  | _ => 'f'

/-- The escaping `JSON.stringify` applies to one string character. -/
def escapeChar (c : Char) : List Char :=
  if c = '"' then ['\\', '"']
  else if c = '\\' then ['\\', '\\']
  else if c = '\x08' then ['\\', 'b']
  else if c = '\t' then ['\\', 't']
  else if c = '\n' then ['\\', 'n']
  else if c = '\x0c' then ['\\', 'f']
  else if c = '\r' then ['\\', 'r']
  else if c.toNat < 32 then ['\\', 'u', '0', '0', hexChar (c.toNat / 16), hexChar (c.toNat % 16)]
  else [c]

/-- `JSON.stringify` string escaping over a whole string body. -/
def escapeStr (s : List Char) : List Char := s.flatMap escapeChar

/-- A `JSON.stringify`-rendered string literal, quotes included. -/
def quoteStr (s : List Char) : List Char := '"' :: escapeStr s ++ ['"']

mutual

/-- `JSON.stringify` on a sanitized node value
(`nodeSignature`, `src/apply/style-normalization.js` lines 139-141). -/
def stringify : Json → List Char
  | .jnull => "null".data
  | .jbool true => "true".data
  | .jbool false => "false".data
  | .jnum n => (toString n).data
  | .jstr s => quoteStr s
  | .jarr items => '[' :: stringifyItems items ++ [']']
  | .jobj fields => '\x7b' :: stringifyFields fields ++ ['\x7d']

/-- Array elements joined with `,`. -/
def stringifyItems : JsonItems → List Char
  | .nil => []
  | .cons hd .nil => stringify hd
  | .cons hd (.cons hd2 tl) =>
    stringify hd ++ ',' :: stringifyItems (.cons hd2 tl)

/-- Object entries `"key":value` joined with `,`. -/
def stringifyFields : JsonFields → List Char
  | .nil => []
  | .cons k v .nil => quoteStr k ++ ':' :: stringify v
  | .cons k v (.cons k2 v2 tl) =>
    quoteStr k ++ ':' :: stringify v ++ ',' :: stringifyFields (.cons k2 v2 tl)

end

/-- `nodeSignature` from `src/apply/style-normalization.js` lines 139-141:
`JSON.stringify(sanitizeForSignature(node))`. -/
def nodeSignature (node : Json) : List Char := stringify (sanitize node)

mutual

/-- Modelled from the spec: two nodes have "identical structural shape" when
they have the same construct kinds, the same child values and the same
literal/operator content, regardless of the position/range/comment-attachment
fields (which `sameShapeFields` skips on either side at every object level). -/
def sameShape : Json → Json → Bool
  | .jnull, .jnull => true
  | .jbool a, .jbool b => a = b
  | .jnum a, .jnum b => a = b
  | .jstr a, .jstr b => a = b
  | .jarr xs, .jarr ys => sameShapeItems xs ys
  | .jobj fs, .jobj gs => sameShapeFields fs gs
  | _, _ => false
termination_by a b => sizeOf a + sizeOf b

/-- Pointwise structural shape equality of array elements. -/
def sameShapeItems : JsonItems → JsonItems → Bool
  | .nil, .nil => true
  | .cons a as, .cons b bs => sameShape a b && sameShapeItems as bs
  | _, _ => false
termination_by xs ys => sizeOf xs + sizeOf ys

/-- Pointwise structural shape equality of object entries, ignoring any
banned (position/range/comment) entry on either side: the surviving keys must
match in order with shape-equal values. -/
def sameShapeFields : JsonFields → JsonFields → Bool
  | .nil, .nil => true
  | .nil, .cons k2 _ tl2 => if bannedKey k2 then sameShapeFields .nil tl2 else false
  | .cons k v tl, gs =>
    if bannedKey k then sameShapeFields tl gs
    else
      match gs with
      | .nil => false
      | .cons k2 v2 tl2 =>
        if bannedKey k2 then sameShapeFields (.cons k v tl) tl2
        else decide (k = k2) && sameShape v v2 && sameShapeFields tl tl2
termination_by fs gs => sizeOf fs + sizeOf gs

end

/-- One step of a path into a JSON value: an object key or an array index. -/
inductive PathElem where
  | key (k : List Char)
  | idx (i : ℕ)

/-- Look up the first field with the given key. -/
def getKeyF : JsonFields → List Char → Option Json
  | .nil, _ => none
  | .cons k v tl, key => if k = key then some v else getKeyF tl key

/-- Replace the value of the first field with the given key. -/
def setKeyF : JsonFields → List Char → Json → JsonFields
  | .nil, _, _ => .nil
  | .cons k v tl, key, x =>
    if k = key then .cons k x tl else .cons k v (setKeyF tl key x)

/-- Look up the element at an index. -/
def getIdxI : JsonItems → ℕ → Option Json
  | .nil, _ => none
  | .cons hd _, 0 => some hd
  | .cons _ tl, i + 1 => getIdxI tl i

/-- Replace the element at an index. -/
def setIdxI : JsonItems → ℕ → Json → JsonItems
  | .nil, _, _ => .nil
  | .cons _ tl, 0, x => .cons x tl
  | .cons hd tl, i + 1, x => .cons hd (setIdxI tl i x)

/-- Replace the subvalue at a path, failing when the path is absent. -/
def replaceAt : Json → List PathElem → Json → Option Json
  | _, [], v => some v
  | .jobj fs, .key k :: p, v =>
    match getKeyF fs k with
    | none => none
    | some v0 =>
      match replaceAt v0 p v with
      | none => none
      | some v' => some (.jobj (setKeyF fs k v'))
  | .jarr xs, .idx i :: p, v =>
    match getIdxI xs i with
    | none => none
    | some v0 =>
      match replaceAt v0 p v with
      | none => none
      | some v' => some (.jarr (setIdxI xs i v'))
  | _, _ :: _, _ => none

/-- Look up the subvalue at a path, failing when the path is absent. -/
def getAt : Json → List PathElem → Option Json
  | a, [] => some a
  | .jobj fs, .key k :: p =>
    match getKeyF fs k with
    | none => none
    | some v0 => getAt v0 p
  | .jarr xs, .idx i :: p =>
    match getIdxI xs i with
    | none => none
    | some v0 => getAt v0 p
  | _, _ :: _ => none

/-- A path that never steps through a banned (position/comment) key. -/
def pathKeysOk : List PathElem → Bool
  | [] => true
  | .key k :: p => !bannedKey k && pathKeysOk p
  | .idx _ :: p => pathKeysOk p

/-- A path whose first object step is a banned key. -/
def pathStartsBanned : List PathElem → Bool
  | .key k :: _ => bannedKey k
  | _ => false

/-- A small binary-expression AST node with a start offset and an operator,
used as a concrete signature-matching input. -/
def c5NodeOf (start : ℤ) (op : List Char) : Json :=
  .jobj (.cons "type".data (.jstr "BinaryExpression".data)
    (.cons "start".data (.jnum start)
      (.cons "operator".data (.jstr op) .nil)))

/-- The path to the operator of `c5NodeOf`. -/
def c5Path : List PathElem := [.key "operator".data]

/-- `'omit' | 'require'` for `applySingleLineIfStyle`. -/
inductive IfBraceStyle where
  | omit
  | require
deriving DecidableEq, Repr

/-- `'match-case' | 'indent'` for `applySwitchCaseBreakIndentation`. -/
inductive SwitchBreakStyle where
  | matchCase
  | indent
deriving DecidableEq, Repr

/-- `'aligned' | 'indented'` for member-expression indentation. -/
inductive MemberStyle where
  | aligned
  | indented
deriving DecidableEq, Repr

/-- `'leading' | 'trailing'` for declaration-list commas. -/
inductive CommaPlacement where
  | leading
  | trailing
deriving DecidableEq, Repr

/-- `'leading' | 'trailing'` for multiline ternary operators. -/
inductive TernaryPlacement where
  | leading
  | trailing
deriving DecidableEq, Repr

/-- `'compact' | 'expanded'` for multiline call arguments. -/
inductive CallLayout where
  | compact
  | expanded
deriving DecidableEq, Repr

/-- `'aligned' | 'single-space'` for trailing inline comments. -/
inductive InlineCommentStyle where
  | aligned
  | singleSpace
deriving DecidableEq, Repr

/-- The fields of an `IfStatement` node read by `applySingleLineIfStyle`
(`src/apply/style-normalization.js` lines 671-730).  `Option ℕ` fields model
the `typeof x !== 'number'` guards on `loc`/offset data. -/
structure IfNode where
  hasAlternate : Bool
  consequentIsBlock : Bool
  locStartLine : Option ℕ
  testStartLine : Option ℕ
  testEndLine : Option ℕ
  consStartLine : Option ℕ
  consEndLine : Option ℕ
  start : Option ℕ
  testStart : Option ℕ
  testEnd : Option ℕ
  consStart : Option ℕ
  consEnd : Option ℕ
deriving Repr

/-- One statement of a `SwitchCase.consequent`. -/
structure StmtView where
  isBreak : Bool
  locStartLine : Option ℕ
  locStartColumn : Option ℕ
deriving Repr

/-- A `SwitchCase` node as read by `applySwitchCaseBreakIndentation`. -/
structure SwitchCaseView where
  locStartColumn : Option ℕ
  consequent : List StmtView
deriving Repr

/-- A `MemberExpression` node as read by `applyMemberChainIndentation`
(`src/apply/style-normalization.js` lines 386-419). -/
structure MemberViewNode where
  objectStartLine : Option ℕ
  objectStartColumn : Option ℕ
  propertyStartLine : Option ℕ
deriving Repr

/-- One declarator of a `VariableDeclaration`. -/
structure DeclaratorView where
  start : Option ℕ
  stop : Option ℕ
  locStartLine : Option ℕ
deriving Repr

/-- A `VariableDeclaration` node as read by
`applyVariableDeclarationCommaPlacement`. -/
structure VarDeclView where
  declarations : List DeclaratorView
deriving Repr

/-- The callee expression graph walked by `collectCalleeMembers`
(`src/apply/style-normalization.js` lines 146-172): call/optional-call nodes
recurse into their callee, member nodes carry the offsets that
`memberSeparator` reads plus their object subtree, anything else stops the
walk. -/
inductive CalleeTree where
  | call (callee : CalleeTree)
  | optcall (callee : CalleeTree)
  | member (obj : CalleeTree) (objectEnd : Option ℕ) (propertyStart : Option ℕ)
      (propertyLocStartColumn : Option ℕ)
  | other
deriving Repr

/-- The member data pushed by `collectCalleeMembers`. -/
structure MemberInfo where
  objectEnd : Option ℕ
  propertyStart : Option ℕ
  propertyLocStartColumn : Option ℕ
deriving Repr

/-- A `CallExpression`/`OptionalCallExpression` whose callee is a member
chain, as visited by `collectReferenceMemberChainLayouts` and
`applyReferenceMemberChainBreaks`.  `parentIsMemberObject` models the
visitor's parent check; `sig` is the JSON node used for `nodeSignature`. -/
structure ChainCallNode where
  parentIsMemberObject : Bool
  sig : Json
  locStartColumn : Option ℕ
  callee : CalleeTree

/-- A `ConditionalExpression` node as read by the ternary-layout functions. -/
structure CondNode where
  sig : Json
  locStartLine : Option ℕ
  locEndLine : Option ℕ
  locStartColumn : Option ℕ
  start : Option ℕ
  stop : Option ℕ
  testStart : Option ℕ
  testEnd : Option ℕ
  consStart : Option ℕ
  consEnd : Option ℕ
  altStart : Option ℕ
  altEnd : Option ℕ

/-- One argument of a `CallExpression` as read by
`applyMultilineCallArgumentLayout`. -/
structure ArgView where
  start : Option ℕ
  stop : Option ℕ
  locStartLine : Option ℕ
deriving Repr

/-- A `CallExpression` node as read by `applyMultilineCallArgumentLayout`. -/
structure CallNode where
  locStartLine : Option ℕ
  locEndLine : Option ℕ
  start : Option ℕ
  stop : Option ℕ
  calleeEnd : Option ℕ
  args : List ArgView
deriving Repr

/-- The node lists that one `parseAst` + `traverse` pass yields, one list per
visitor, in traversal order.  The external `@babel/parser` (`parseAst`,
`src/apply/style-normalization.js` lines 17-39) is modelled as a function
`Src → Option AstView`; `none` is a parse failure (`parseAst` returned
`null`). -/
structure AstView where
  ifNodes : List IfNode
  switchCases : List SwitchCaseView
  memberNodes : List MemberViewNode
  chainCalls : List ChainCallNode
  condExprs : List CondNode
  callNodes : List CallNode
  varDecls : List VarDeclView

/-- The type of the (external) parser parameter. -/
abbrev ParseFn := Src → Option AstView

/-- `String.prototype.trim`. -/
def jsTrim (l : Src) : Src :=
  ((l.dropWhile isJsSpace).reverse.dropWhile isJsSpace).reverse

/-- `lastIndexOf` of a character over a whole list. -/
def lastIdxOf (l : Src) (c : Char) : Option ℕ :=
  (l.reverse.findIdx? (fun d => decide (d = c))).map (fun j => l.length - 1 - j)

/-- `source.lastIndexOf('\n', pos - 1) + 1`: the offset of the start of the
line containing offset `pos`. -/
def lineStartBefore (source : Src) (pos : ℕ) : ℕ :=
  match (source.take pos).reverse.findIdx? (fun c => decide (c = '\n')) with
  | some j => pos - j
  | none => 0

/-- The per-node body of the `IfStatement` visitor of `applySingleLineIfStyle`
(`src/apply/style-normalization.js` lines 672-730). -/
def ifReplacement (source : Src) (lines : List Src) (node : IfNode) :
    Option Replacement :=
  if node.hasAlternate then none
  else if node.consequentIsBlock then none
  else
    match node.locStartLine, node.testStartLine, node.testEndLine,
        node.consStartLine, node.consEndLine with
    | some ifLine, some testStartLine, some testEndLine,
        some statementStartLine, some statementEndLine =>
      if testStartLine ≠ ifLine ∨ testEndLine ≠ ifLine then none
      else if statementStartLine ≠ statementEndLine then none
      else if statementStartLine ≠ ifLine + 1 then none
      else
        match node.start, node.consEnd, node.testStart, node.testEnd,
            node.consStart with
        | some ifStart, some ifEnd, some testStart, some testEnd,
            some statementStart =>
          let statementLine := (lines.get? (statementStartLine - 1)).getD []
          if hasSub "//".data statementLine then none
          else
            let between := jsSlice source testEnd statementStart
            if ¬between.contains '\n' then none
            else if hasSub "//".data between ∨ hasSub "/*".data between then none
            else
              let condition := jsSlice source testStart testEnd
              let statement := jsSlice source statementStart ifEnd
              if condition.contains '\n' ∨ statement.contains '\n' then none
              else
                some ⟨(ifStart : ℤ), (ifEnd : ℤ),
                  "if (".data ++ condition ++ ") ".data ++ statement⟩
        | _, _, _, _, _ => none
    | _, _, _, _, _ => none

/-- `applySingleLineIfStyle` from `src/apply/style-normalization.js`
lines 661-734. -/
def applySingleLineIfStyle (parse : ParseFn) (source : Src)
    (style : Option IfBraceStyle) : Src :=
  if style ≠ some .omit then source
  else
    match parse source with
    | none => source
    | some ast =>
      let lines := splitLines source
      applyReplacements source (ast.ifNodes.filterMap (ifReplacement source lines))

/-- The per-case body of the `SwitchCase` visitor of
`applySwitchCaseBreakIndentation` (`src/apply/style-normalization.js`
lines 945-976). -/
def switchCaseReplacements (style : SwitchBreakStyle) (indentKind : IndentKind)
    (indentSize : ℕ) (offsets : List ℕ) (node : SwitchCaseView) :
    List Replacement :=
  match node.locStartColumn with
  | none => []
  | some caseColumn =>
    let desiredColumn :=
      match style with
      | .matchCase => caseColumn
      | .indent => caseColumn + indentStepOf indentSize
    node.consequent.filterMap (fun statement =>
      if ¬statement.isBreak then none
      else
        match statement.locStartLine, statement.locStartColumn with
        | some breakLine, some breakColumn =>
          if breakColumn = desiredColumn then none
          else
            match offsets.get? (breakLine - 1) with
            | none => none
            | some lineStart =>
              some ⟨(lineStart : ℤ), ((lineStart + breakColumn : ℕ) : ℤ),
                indentForColumn desiredColumn indentKind indentSize⟩
        | _, _ => none)

/-- `applySwitchCaseBreakIndentation` from `src/apply/style-normalization.js`
lines 929-980. -/
def applySwitchCaseBreakIndentation (parse : ParseFn) (source : Src)
    (style : Option SwitchBreakStyle) (indentKind : IndentKind)
    (indentSize : ℕ) : Src :=
  match style with
  | none => source
  | some st =>
    match parse source with
    | none => source
    | some ast =>
      let offsets := lineOffsets source
      applyReplacements source
        ((ast.switchCases.map (switchCaseReplacements st indentKind indentSize offsets)).flatten)

/-- Leading `?.` or `.` after optional whitespace
(the regex `^\s*(?:\?\.|\.)` on a newline-free line). -/
def startsDotish (l : Src) : Bool :=
  match l with
  | '.' :: _ => true
  | '?' :: '.' :: _ => true
  | _ => false

/-- The per-node body of the `MemberExpression` visitor of
`applyMemberChainIndentation` (`src/apply/style-normalization.js`
lines 386-419). -/
def memberChainReplacement (style : MemberStyle) (indentKind : IndentKind)
    (indentSize : ℕ) (lines : List Src) (offsets : List ℕ)
    (node : MemberViewNode) : Option Replacement :=
  match node.objectStartLine, node.objectStartColumn, node.propertyStartLine with
  | some objectStartLine, some objectStartColumn, some memberLine =>
    if memberLine ≤ objectStartLine then none
    else
      match lines.get? (memberLine - 1) with
      | none => none
      | some continuation =>
        if continuation = [] then none
        else if ¬startsDotish (continuation.dropWhile isJsSpace) then none
        else
          let continuationColumn := (continuation.takeWhile isJsSpace).length
          let desiredColumn :=
            if style = .aligned then objectStartColumn
            else objectStartColumn + indentStepOf indentSize
          if continuationColumn = desiredColumn then none
          else
            match offsets.get? (memberLine - 1) with
            | none => none
            | some lineStart =>
              some ⟨(lineStart : ℤ), ((lineStart + continuationColumn : ℕ) : ℤ),
                indentForColumn desiredColumn indentKind indentSize⟩
  | _, _, _ => none

/-- `applyMemberChainIndentation` from `src/apply/style-normalization.js`
lines 376-422. -/
def applyMemberChainIndentation (parse : ParseFn) (source : Src)
    (style : MemberStyle) (indentKind : IndentKind) (indentSize : ℕ) : Src :=
  match parse source with
  | none => source
  | some ast =>
    let offsets := lineOffsets source
    let lines := splitLines source
    applyReplacements source
      (ast.memberNodes.filterMap
        (memberChainReplacement style indentKind indentSize lines offsets))

/-- The per-pair body of the `VariableDeclaration` visitor of
`applyVariableDeclarationCommaPlacement` (`src/apply/style-normalization.js`
lines 870-916). -/
def varDeclPairReplacement (source : Src) (offsets : List ℕ)
    (placement : CommaPlacement) (previous current : DeclaratorView) :
    Option Replacement :=
  match previous.stop, current.start with
  | some previousEnd, some currentStart =>
    let between := jsSlice source previousEnd currentStart
    if ¬between.contains '\n' then none
    else if hasSub "//".data between ∨ hasSub "/*".data between then none
    else
      match between.findIdx? (fun c => decide (c = ',')) with
      | none => none
      | some commaIndex =>
        let beforeComma := between.take commaIndex
        let afterComma := between.drop (commaIndex + 1)
        let beforeCommaLine :=
          match lastIdxOf beforeComma '\n' with
          | none => beforeComma
          | some i => beforeComma.drop (i + 1)
        let newlineBeforeComma := beforeComma.contains '\n'
        let newlineAfterComma := afterComma.contains '\n'
        let isLeading := newlineBeforeComma ∧ jsTrim beforeCommaLine = []
        let isTrailing := ¬newlineBeforeComma ∧ newlineAfterComma
        if ¬isLeading ∧ ¬isTrailing then none
        else
          match current.locStartLine with
          | none => none
          | some currentLine =>
            match offsets.get? (currentLine - 1) with
            | none => none
            | some lineStart =>
              let currentIndent := jsSlice source lineStart currentStart
              if placement = .leading ∧ isTrailing then
                some ⟨(previousEnd : ℤ), (currentStart : ℤ),
                  '\n' :: currentIndent ++ ", ".data⟩
              else if placement = .trailing ∧ isLeading then
                some ⟨(previousEnd : ℤ), (currentStart : ℤ),
                  ',' :: '\n' :: currentIndent⟩
              else none
  | _, _ => none

/-- `applyVariableDeclarationCommaPlacement` from
`src/apply/style-normalization.js` lines 855-921. -/
def applyVariableDeclarationCommaPlacement (parse : ParseFn) (source : Src)
    (placement : Option CommaPlacement) : Src :=
  match placement with
  | none => source
  | some pl =>
    match parse source with
    | none => source
    | some ast =>
      let offsets := lineOffsets source
      let perDecl := fun (node : VarDeclView) =>
        if node.declarations.length < 2 then ([] : List Replacement)
        else
          (node.declarations.zip node.declarations.tail).filterMap
            (fun pair => varDeclPairReplacement source offsets pl pair.1 pair.2)
      applyReplacements source ((ast.varDecls.map perDecl).flatten)

/-- Lookup in an insertion-ordered map (the JS `Map` used for layout queues). -/
def assocGet {α : Type} (m : List (List Char × List α)) (k : List Char) :
    Option (List α) :=
  (m.find? (fun e => decide (e.1 = k))).map (fun e => e.2)

/-- Replace the queue stored under an existing key. -/
def assocSet {α : Type} (m : List (List Char × List α)) (k : List Char)
    (v : List α) : List (List Char × List α) :=
  m.map (fun e => if e.1 = k then (k, v) else e)

/-- `const queue = layouts.get(key) ?? []; queue.push(x); layouts.set(key, queue)`. -/
def assocAppend {α : Type} (m : List (List Char × List α)) (k : List Char)
    (x : α) : List (List Char × List α) :=
  match assocGet m k with
  | none => m ++ [(k, [x])]
  | some q => assocSet m k (q ++ [x])

/-- `collectCalleeMembers` from `src/apply/style-normalization.js`
lines 146-172: members are pushed object-first, i.e. outermost last. -/
def collectCalleeMembers : CalleeTree → List MemberInfo
  | .call callee => collectCalleeMembers callee
  | .optcall callee => collectCalleeMembers callee
  | .member obj objectEnd propertyStart propertyLocStartColumn =>
    collectCalleeMembers obj ++ [⟨objectEnd, propertyStart, propertyLocStartColumn⟩]
  | .other => []

/-- The separator data computed by `memberSeparator`
(`src/apply/style-normalization.js` lines 178-193). -/
structure SepInfo where
  start : ℕ
  stop : ℕ
  between : Src
  delimiter : Src
  hasNewline : Bool
deriving Repr

/-- `memberSeparator` from `src/apply/style-normalization.js` lines 178-193. -/
def memberSeparator (source : Src) (m : MemberInfo) : Option SepInfo :=
  match m.objectEnd, m.propertyStart with
  | some objectEnd, some propertyStart =>
    let between := jsSlice source objectEnd propertyStart
    if ¬(hasSub ".".data between ∨ hasSub "?.".data between) then none
    else
      let delimiter := if hasSub "?.".data between then "?.".data else ".".data
      some ⟨objectEnd, propertyStart, between, delimiter, between.contains '\n'⟩
  | _, _ => none

/-- `MemberChainSegment` (`src/apply/style-normalization.js` line 196). -/
structure ChainSegment where
  broken : Bool
  column : Option ℕ
deriving Repr

/-- `MemberChainLayout` (`src/apply/style-normalization.js` line 197). -/
structure ChainLayout where
  segments : List ChainSegment
deriving Repr

/-- The `collectNode` body of `collectReferenceMemberChainLayouts`
(`src/apply/style-normalization.js` lines 212-241); `Math.max(0, c - d)` is
the truncating `ℕ` subtraction. -/
def collectChainNode (referenceSource : Src) (node : ChainCallNode) :
    Option (List Char × ChainLayout) :=
  let members := collectCalleeMembers node.callee
  if members.length < 2 then none
  else
    let segments := members.filterMap (fun m =>
      (memberSeparator referenceSource m).map (fun sep =>
        let column : Option ℕ :=
          if sep.hasNewline then
            match m.propertyLocStartColumn with
            | some propertyColumn => some (propertyColumn - sep.delimiter.length)
            | none => none
          else none
        ({ broken := sep.hasNewline, column := column } : ChainSegment)))
    let brokenCount := (segments.filter (fun s => s.broken)).length
    if segments.isEmpty || decide (brokenCount = 0) then none
    else some (nodeSignature node.sig, ⟨segments⟩)

/-- `collectReferenceMemberChainLayouts` from
`src/apply/style-normalization.js` lines 203-269 (the traversal skips call
nodes that are the object of an enclosing member expression). -/
def collectReferenceMemberChainLayouts (parse : ParseFn)
    (referenceSource : Src) : List (List Char × List ChainLayout) :=
  match parse referenceSource with
  | none => []
  | some ast =>
    ast.chainCalls.foldl
      (fun m node =>
        if node.parentIsMemberObject then m
        else
          match collectChainNode referenceSource node with
          | none => m
          | some kv => assocAppend m kv.1 kv.2)
      []

/-- The `alignNode` body of `applyReferenceMemberChainBreaks`
(`src/apply/style-normalization.js` lines 296-340), threading the layout
queues and the replacement list explicitly. -/
def alignChainNode (source : Src) (style : MemberStyle)
    (indentKind : IndentKind) (indentSize : ℕ)
    (st : List (List Char × List ChainLayout) × List Replacement)
    (node : ChainCallNode) :
    List (List Char × List ChainLayout) × List Replacement :=
  if node.parentIsMemberObject then st
  else
    let key := nodeSignature node.sig
    match assocGet st.1 key with
    | none => st
    | some [] => st
    | some (layout :: restQueue) =>
      let layouts := assocSet st.1 key restQueue
      let baseColumn := node.locStartColumn.getD 0
      let fallbackColumn :=
        if style = .aligned then baseColumn else baseColumn + indentStepOf indentSize
      let members := collectCalleeMembers node.callee
      let currentSegments := members.filterMap (memberSeparator source)
      let newReps := (layout.segments.zip currentSegments).filterMap
        (fun pair =>
          let target := pair.1
          let current := pair.2
          if hasSub "//".data current.between ∨ hasSub "/*".data current.between then
            none
          else if target.broken ∧ ¬current.hasNewline then
            let targetColumn := target.column.getD fallbackColumn
            some (⟨(current.start : ℤ), (current.stop : ℤ),
              '\n' :: indentForColumn targetColumn indentKind indentSize ++
                current.delimiter⟩ : Replacement)
          else if ¬target.broken ∧ current.hasNewline then
            some ⟨(current.start : ℤ), (current.stop : ℤ), current.delimiter⟩
          else none)
      (layouts, st.2 ++ newReps)

/-- `applyReferenceMemberChainBreaks` from `src/apply/style-normalization.js`
lines 278-368. -/
def applyReferenceMemberChainBreaks (parse : ParseFn) (source : Src)
    (style : MemberStyle) (indentKind : IndentKind) (indentSize : ℕ)
    (referenceLayouts : List (List Char × List ChainLayout)) : Src :=
  if referenceLayouts.isEmpty then source
  else
    match parse source with
    | none => source
    | some ast =>
      applyReplacements source
        (ast.chainCalls.foldl (alignChainNode source style indentKind indentSize)
          (referenceLayouts, [])).2

/-- `applyMemberExpressionIndentation` from
`src/apply/style-normalization.js` lines 431-453. -/
def applyMemberExpressionIndentation (parse : ParseFn) (source : Src)
    (style : Option MemberStyle) (indentKind : IndentKind) (indentSize : ℕ)
    (referenceSource : Option Src) : Src :=
  match style with
  | none => source
  | some st =>
    let next :=
      match referenceSource with
      | some ref =>
        if ref ≠ [] then
          applyReferenceMemberChainBreaks parse source st indentKind indentSize
            (collectReferenceMemberChainLayouts parse ref)
        else source
      | none => source
    applyMemberChainIndentation parse next st indentKind indentSize

/-- `ternaryOperatorInfo` from `src/apply/style-normalization.js`
lines 469-480: the column of the first occurrence of the operator between the
two offsets, and whether a line break precedes it. -/
def ternaryOperatorInfo (source : Src) (start stop : ℕ) (op : Char) :
    Option (ℕ × Bool) :=
  let between := jsSlice source start stop
  match between.findIdx? (fun c => decide (c = op)) with
  | none => none
  | some index =>
    let absolute := start + index
    let lineStart := lineStartBefore source absolute
    some (absolute - lineStart, (between.take index).contains '\n')

/-- `ReferenceTernaryLayout` (`src/apply/style-normalization.js`
lines 456-461). -/
structure ReferenceTernaryLayout where
  placement : TernaryPlacement
  questionColumn : ℕ
  colonColumn : ℕ
deriving Repr

/-- `ternaryPlacement` from `src/apply/style-normalization.js`
lines 487-512. -/
def ternaryPlacementOf (source : Src) (node : CondNode) :
    Option ReferenceTernaryLayout :=
  match node.locStartLine, node.locEndLine with
  | some startLine, some endLine =>
    if startLine = endLine then none
    else
      match node.testEnd, node.consStart, node.consEnd, node.altStart with
      | some testEnd, some consStart, some consEnd, some altStart =>
        match ternaryOperatorInfo source testEnd consStart '?',
            ternaryOperatorInfo source consEnd altStart ':' with
        | some question, some colon =>
          some ⟨if question.2 ∨ colon.2 then .leading else .trailing,
            question.1, colon.1⟩
        | _, _ => none
      | _, _, _, _ => none
  | _, _ => none

/-- `collectReferenceTernaryLayouts` from `src/apply/style-normalization.js`
lines 517-536. -/
def collectReferenceTernaryLayouts (parse : ParseFn) (referenceSource : Src) :
    List (List Char × List ReferenceTernaryLayout) :=
  match parse referenceSource with
  | none => []
  | some ast =>
    ast.condExprs.foldl
      (fun m node =>
        match ternaryPlacementOf referenceSource node with
        | none => m
        | some info => assocAppend m (nodeSignature node.sig) info)
      []

/-- The `ConditionalExpression` visitor body of
`applyReferenceTernaryLayouts` (`src/apply/style-normalization.js`
lines 561-621).  Note that the queue is consumed before the single-line and
comment guards run, exactly as in the source. -/
def rewriteTernaryNode (source : Src) (indentKind : IndentKind)
    (indentSize : ℕ)
    (st : List (List Char × List ReferenceTernaryLayout) × List Replacement)
    (node : CondNode) :
    List (List Char × List ReferenceTernaryLayout) × List Replacement :=
  let key := nodeSignature node.sig
  match assocGet st.1 key with
  | none => st
  | some [] => st
  | some (reference :: restQueue) =>
    let layouts := assocSet st.1 key restQueue
    match node.locStartLine, node.locEndLine with
    | some startLine, some endLine =>
      if startLine ≠ endLine then (layouts, st.2)
      else
        match node.start, node.stop, node.testStart, node.testEnd,
            node.consStart, node.consEnd, node.altStart, node.altEnd with
        | some nodeStart, some nodeEnd, some testStart, some testEnd,
            some consStart, some consEnd, some altStart, some altEnd =>
          let betweenQuestion := jsSlice source testEnd consStart
          let betweenColon := jsSlice source consEnd altStart
          if hasSub "//".data betweenQuestion ∨ hasSub "/*".data betweenQuestion ∨
              hasSub "//".data betweenColon ∨ hasSub "/*".data betweenColon then
            (layouts, st.2)
          else
            let test := jsTrim (jsSlice source testStart testEnd)
            let consequent := jsTrim (jsSlice source consStart consEnd)
            let alternate := jsTrim (jsSlice source altStart altEnd)
            if test = [] ∨ consequent = [] ∨ alternate = [] then (layouts, st.2)
            else if test.contains '\n' ∨ consequent.contains '\n' ∨
                alternate.contains '\n' then (layouts, st.2)
            else
              -- `Number.isInteger` holds for the ℕ-valued reference columns,
              -- so the `fallbackColumn` branch of lines 604-610 is dead here.
              let questionColumn := reference.questionColumn
              let colonColumn := reference.colonColumn
              (layouts, st.2 ++
                [⟨(nodeStart : ℤ), (nodeEnd : ℤ),
                  test ++
                    '\n' :: (indentForColumn questionColumn indentKind indentSize ++
                      '?' :: ' ' :: consequent) ++
                    '\n' :: (indentForColumn colonColumn indentKind indentSize ++
                      ':' :: ' ' :: alternate)⟩])
        | _, _, _, _, _, _, _, _ => (layouts, st.2)
    | _, _ => (layouts, st.2)

/-- `applyReferenceTernaryLayouts` from `src/apply/style-normalization.js`
lines 545-625. -/
def applyReferenceTernaryLayouts (parse : ParseFn) (source : Src)
    (placement : TernaryPlacement) (indentKind : IndentKind) (indentSize : ℕ)
    (referenceLayouts : List (List Char × List ReferenceTernaryLayout)) : Src :=
  if referenceLayouts.isEmpty || decide (placement ≠ .leading) then source
  else
    match parse source with
    | none => source
    | some ast =>
      applyReplacements source
        (ast.condExprs.foldl (rewriteTernaryNode source indentKind indentSize)
          (referenceLayouts, [])).2

/-- `applyTernaryLayout` from `src/apply/style-normalization.js`
lines 634-655. -/
def applyTernaryLayout (parse : ParseFn) (source : Src)
    (placement : Option TernaryPlacement) (indentKind : IndentKind)
    (indentSize : ℕ) (referenceSource : Option Src) : Src :=
  match placement with
  | none => source
  | some pl =>
    match referenceSource with
    | none => source
    | some ref =>
      if ref = [] then source
      else
        applyReferenceTernaryLayouts parse source pl indentKind indentSize
          (collectReferenceTernaryLayouts parse ref)

/-- The inter-argument scan of `applyMultilineCallArgumentLayout`
(`src/apply/style-normalization.js` lines 798-807): `none` models the early
`return` aborting the whole node, otherwise the updated `shouldCompact`. -/
def argGapScan (source : Src) : List ArgView → Bool → Option Bool
  | [], shouldCompact => some shouldCompact
  | [_], shouldCompact => some shouldCompact
  | previous :: current :: rest, shouldCompact =>
    match previous.stop, current.start with
    | some previousEnd, some currentStart =>
      let between := jsSlice source previousEnd currentStart
      if ¬between.contains ',' then none
      else if hasSub "//".data between ∨ hasSub "/*".data between then none
      else argGapScan source (current :: rest) (shouldCompact ∨ between.contains '\n')
    | _, _ => none

/-- The `transformed.replace(/\n([ \t]+)/g, ...)` pass of
`applyMultilineCallArgumentLayout` (line 834): after every newline, the
space/tab run is dedented via `dedentIndent`. -/
def dedentNewlineRuns (count : ℕ) : Src → Src
  | [] => []
  | c :: rest =>
    if c = '\n' then
      let run := rest.takeWhile (fun d => decide (d = ' ' ∨ d = '\t'))
      '\n' :: (dedentIndent run count ++ dedentNewlineRuns count (rest.drop run.length))
    else c :: dedentNewlineRuns count rest
termination_by s => s.length
decreasing_by
  · simp only [List.length_cons, List.length_drop]
    omega
  · simp

/-- The `CallExpression` visitor body of `applyMultilineCallArgumentLayout`
(`src/apply/style-normalization.js` lines 750-845). -/
def callReplacement (source : Src) (node : CallNode) : Option Replacement :=
  match node.args with
  | [] => none
  | firstArg :: _ =>
    match node.locStartLine, node.locEndLine, firstArg.locStartLine with
    | some callStart, some callEnd, some firstArgStart =>
      if callEnd ≤ callStart then none
      else
        match node.start, node.stop, node.calleeEnd, firstArg.start with
        | some start, some stop, some calleeEnd, some firstArgOffset =>
          let callPrefixText := jsSlice source calleeEnd firstArgOffset
          if hasSub "//".data callPrefixText ∨ hasSub "/*".data callPrefixText then none
          else
            match lastIdxOf callPrefixText '(' with
            | none => none
            | some openParenRelative =>
              let openParen := calleeEnd + openParenRelative
              let closeParen := stop - 1
              if closeParen ≤ openParen ∨ source.get? closeParen ≠ some ')' then none
              else
                match node.args.getLast? with
                | none => none
                | some lastArg =>
                  match lastArg.stop with
                  | none => none
                  | some lastArgEnd =>
                    let betweenOpenAndFirst := jsSlice source (openParen + 1) firstArgOffset
                    if hasSub "//".data betweenOpenAndFirst ∨
                        hasSub "/*".data betweenOpenAndFirst then none
                    else
                      match argGapScan source node.args
                          (betweenOpenAndFirst.contains '\n') with
                      | none => none
                      | some gapCompact =>
                        let betweenLastAndClose := jsSlice source lastArgEnd closeParen
                        if hasSub "//".data betweenLastAndClose ∨
                            hasSub "/*".data betweenLastAndClose then none
                        else
                          let shouldCompact :=
                            gapCompact ∨ betweenLastAndClose.contains '\n'
                          if ¬shouldCompact then none
                          else
                            let trailingComma :=
                              (betweenLastAndClose.reverse.dropWhile isJsSpace).head? =
                                some ','
                            let argTexts := node.args.map (fun arg =>
                              match arg.start, arg.stop with
                              | some s, some e => jsSlice source s e
                              | _, _ => ([] : Src))
                            if argTexts.any (fun text => text.isEmpty) then none
                            else
                              let compactArgs :=
                                ((argTexts.intersperse ", ".data).flatten) ++
                                  (if trailingComma then [','] else [])
                              let transformed :=
                                jsSlice source start (openParen + 1) ++ compactArgs ++ [')']
                              let transformed :=
                                if callStart < firstArgStart then
                                  let callLineStart := lineStartBefore source start
                                  let firstArgLineStart :=
                                    lineStartBefore source firstArgOffset
                                  let callIndent := start - callLineStart
                                  let firstArgIndent := firstArgOffset - firstArgLineStart
                                  let dedentBy := firstArgIndent - callIndent
                                  if 0 < dedentBy then dedentNewlineRuns dedentBy transformed
                                  else transformed
                                else transformed
                              if transformed = jsSlice source start stop then none
                              else some ⟨(start : ℤ), (stop : ℤ), transformed⟩
        | _, _, _, _ => none
    | _, _, _ => none

/-- `applyMultilineCallArgumentLayout` from
`src/apply/style-normalization.js` lines 740-849. -/
def applyMultilineCallArgumentLayout (parse : ParseFn) (source : Src)
    (layout : Option CallLayout) : Src :=
  if layout ≠ some .compact then source
  else
    match parse source with
    | none => source
    | some ast =>
      applyReplacements source (ast.callNodes.filterMap (callReplacement source))

/-- ASCII word character, JavaScript `\w`. -/
def isAsciiWord (c : Char) : Bool :=
  ('A' ≤ c ∧ c ≤ 'Z') ∨ ('a' ≤ c ∧ c ≤ 'z') ∨ ('0' ≤ c ∧ c ≤ '9') ∨ c = '_'

/-- ASCII letter. -/
def isAsciiAlpha (c : Char) : Bool :=
  ('A' ≤ c ∧ c ≤ 'Z') ∨ ('a' ≤ c ∧ c ≤ 'z')

/-- `kw` followed by optional whitespace and `(`
(the regex `^(?:if|for|while|switch|catch)\s*\(` for a single keyword). -/
def startsThenParen (kw : Src) (l : Src) : Bool :=
  kw.isPrefixOf l && ((l.drop kw.length).dropWhile isJsSpace).head? = some '('

/-- `kw` followed by a word boundary (the regex `^kw\b`). -/
def startsWordBreak (kw : Src) (l : Src) : Bool :=
  kw.isPrefixOf l &&
    (match (l.drop kw.length).head? with
     | none => true
     | some c => ¬isAsciiWord c)

/-- The regex `/(?:^|[^=!<>])(?:[+\-*\/%&|^]?=)(?!=)/` of
`isLikelyAlignmentTarget`: some `=` (optionally as part of a compound
assignment operator) that is neither preceded by `=`, `!`, `<`, `>` nor
followed by `=`. -/
def hasAssignmentLike (l : Src) : Bool :=
  (List.range l.length).any (fun i =>
    l.get? i = some '=' &&
    (match l.get? (i + 1) with
     | some '=' => false
     | _ => true) &&
    ((decide (i = 0) ||
        (match l.get? (i - 1) with
         | some p => ¬(p = '=' ∨ p = '!' ∨ p = '<' ∨ p = '>')
         | none => true)) ||
      (match l.get? (i - 1) with
       | some p =>
         (p = '+' ∨ p = '-' ∨ p = '*' ∨ p = '/' ∨ p = '%' ∨ p = '&' ∨
             p = '|' ∨ p = '^') &&
           (decide (i = 1) ||
             (match l.get? (i - 2) with
              | some q => ¬(q = '=' ∨ q = '!' ∨ q = '<' ∨ q = '>')
              | none => true))
       | none => false)))

/-- The regex `^(?:['"][^'"]+['"]|[A-Za-z_$][\w$]*)\s*:` of
`isLikelyAlignmentTarget`: a quoted or identifier-like object key followed by
a colon. -/
def startsKeyColon (l : Src) : Bool :=
  match l with
  | [] => false
  | q :: rest =>
    if q = '\'' ∨ q = '"' then
      let body := rest.takeWhile (fun c => decide (¬(c = '\'' ∨ c = '"')))
      if body.isEmpty then false
      else
        match rest.drop body.length with
        | q2 :: rest2 =>
          (q2 = '\'' ∨ q2 = '"') && ((rest2.dropWhile isJsSpace).head? = some ':')
        | [] => false
    else if isAsciiAlpha q ∨ q = '_' ∨ q = '$' then
      ((rest.dropWhile (fun c => isAsciiWord c ∨ c = '$')).dropWhile isJsSpace).head? =
        some ':'
    else false

/-- `isLikelyAlignmentTarget` from the inline-comment normalizer
(`src/apply/style-normalization.js`, second module, lines 990-1002). -/
def isLikelyAlignmentTarget (callPrefix : Src) : Bool :=
  let trimmed := jsTrim callPrefix
  if trimmed.isEmpty then false
  else if startsThenParen "if".data trimmed ∨ startsThenParen "for".data trimmed ∨
      startsThenParen "while".data trimmed ∨ startsThenParen "switch".data trimmed ∨
      startsThenParen "catch".data trimmed then false
  else if startsWordBreak "return".data trimmed ∨ startsWordBreak "throw".data trimmed then
    false
  else if startsWordBreak "case".data trimmed ∨ startsWordBreak "default".data trimmed then
    false
  else if trimmed.head? = some '[' then true
  else if (trimmed.reverse.dropWhile isJsSpace).head? = some ',' then true
  else if (trimmed.reverse.dropWhile isJsSpace).head? = some '\x7b' then true
  else if hasAssignmentLike trimmed then true
  else if startsKeyColon trimmed then true
  else false

/-- `value.replace(/\s+$/, '')`. -/
def trimEndWs (l : Src) : Src := (l.reverse.dropWhile isJsSpace).reverse

/-- Collapse whitespace runs to single spaces (`replace(/\s+/g, ' ')`). -/
def collapseWsRuns : Src → Src
  | [] => []
  | c :: rest =>
    if isJsSpace c then ' ' :: collapseWsRuns (rest.dropWhile isJsSpace)
    else c :: collapseWsRuns rest
termination_by s => s.length
decreasing_by
  · simp only [List.length_cons]
    have := (List.dropWhile_sublist (p := isJsSpace) (l := rest)).length_le
    omega
  · simp

/-- `normalizeLeftForMatch` from the inline-comment normalizer
(lines 1007-1009): trim, then collapse interior whitespace. -/
def normalizeLeftForMatch (value : Src) : Src := collapseWsRuns (jsTrim value)

/-- The backtracking split of the candidate regex
`^(\s*)(.+?)(\s+)\/\/(.*)$` on a newline-free line: returns the lengths
`(a, b, c)` of the three groups before `//`, following the JS preference
order (`\s*` greedy, `.+?` lazy, then the whitespace run must end exactly
where `//` begins). -/
def candidateSplit (line : Src) : Option (ℕ × ℕ × ℕ) :=
  let n := line.length
  let maxA := (line.takeWhile isJsSpace).length
  (List.range (maxA + 1)).findSome? (fun ai =>
    let a := maxA - ai
    (List.range n).findSome? (fun bm1 =>
      let b := bm1 + 1
      if n < a + b then none
      else
        let restWs := ((line.drop (a + b)).takeWhile isJsSpace).length
        if restWs = 0 then none
        else
          match line.drop (a + b + restWs) with
          | '/' :: '/' :: _ => some (a, b, restWs)
          | _ => none))

/-- A parsed trailing-comment candidate (`parseCandidate`, lines 1070-1085). -/
structure InlineCandidate where
  lineNumber : ℕ
  line : Src
  left : Src
  indent : ℕ
  comment : Src
deriving Repr

/-- `parseCandidate` from the inline-comment normalizer (lines 1070-1085). -/
def parseCandidate (line : Src) (lineNumber : ℕ) : Option InlineCandidate :=
  match candidateSplit line with
  | none => none
  | some (a, b, c) =>
    let left := line.take (a + b)
    let trimmedLeft := trimEndWs left
    if ¬isLikelyAlignmentTarget trimmedLeft then none
    else some ⟨lineNumber, line, trimmedLeft, a, line.drop (a + b + c + 2)⟩

/-- `referenceInlineCommentLookup` from the inline-comment normalizer
(lines 1014-1033): a `Map<string, Set<string>>` keyed by the normalized
left-hand text, holding the comment texts seen in the reference source. -/
def referenceInlineCommentLookup (referenceSource : Src) :
    List (Src × List Src) :=
  (splitLines referenceSource).foldl
    (fun lookup line =>
      match candidateSplit line with
      | none => lookup
      | some (a, b, c) =>
        let left := trimEndWs (line.take (a + b))
        if ¬isLikelyAlignmentTarget left then lookup
        else
          let key := normalizeLeftForMatch left
          let commentText := jsTrim (line.drop (a + b + c + 2))
          match assocGet lookup key with
          | none => lookup ++ [(key, [commentText])]
          | some values =>
            if values.contains commentText then lookup
            else assocSet lookup key (values ++ [commentText]))
    []

/-- The splice loop of `restoreDetachedInlineComments` (lines 1043-1063);
`fuel` bounds the iteration count (the JS loop increments `index` every
round, so `lines.length` rounds suffice). -/
def restoreDetachedGo (lookup : List (Src × List Src)) :
    ℕ → ℕ → List Src → List Src
  | 0, _, lines => lines
  | fuel + 1, index, lines =>
    if index + 1 < lines.length then
      let line := lines.getD index []
      let next := lines.getD (index + 1) []
      let step : Option (List Src) :=
        if hasSub "//".data line then none
        else
          let ws := next.takeWhile isJsSpace
          match next.drop ws.length with
          | '/' :: '/' :: detachedRest =>
            let left := trimEndWs line
            if ¬isLikelyAlignmentTarget left then none
            else
              match assocGet lookup (normalizeLeftForMatch left) with
              | none => none
              | some allowedComments =>
                let commentText := jsTrim detachedRest
                if ¬allowedComments.contains commentText then none
                else
                  some ((lines.set index
                    (left ++ " // ".data ++ commentText)).eraseIdx (index + 1))
          | _ => none
      match step with
      | none => restoreDetachedGo lookup fuel (index + 1) lines
      | some lines' => restoreDetachedGo lookup fuel (index + 1) lines'
    else lines

/-- `restoreDetachedInlineComments` from the inline-comment normalizer
(lines 1039-1064). -/
def restoreDetachedInlineComments (lines : List Src) (referenceSource : Src) :
    List Src :=
  let lookup := referenceInlineCommentLookup referenceSource
  if lookup.isEmpty then lines
  else restoreDetachedGo lookup lines.length 0 lines

/-- The grouping loop of `splitGroups` (lines 1114-1146). -/
def splitGroupsGo (lines : List Src) :
    List InlineCandidate → InlineCandidate → List InlineCandidate →
      List (List InlineCandidate)
  | group, _, [] => [group]
  | group, previous, current :: rest =>
    let baseIndent := ((group.head?).map (fun e => e.indent)).getD current.indent
    let gap := current.lineNumber - previous.lineNumber - 1
    let between :=
      if 0 < gap then (lines.take current.lineNumber).drop (previous.lineNumber + 1)
      else []
    let hasBlankBetween := between.any (fun line => line.all isJsSpace)
    let split :=
      decide (current.indent ≠ baseIndent) || decide (3 < gap) || hasBlankBetween
    if split then group :: splitGroupsGo lines [current] current rest
    else splitGroupsGo lines (group ++ [current]) current rest

/-- `splitGroups` from the inline-comment normalizer (lines 1114-1146). -/
def splitGroups (candidates : List InlineCandidate) (lines : List Src) :
    List (List InlineCandidate) :=
  match candidates with
  | [] => []
  | c :: rest => splitGroupsGo lines [c] c rest

/-- `rewriteGroup` from the inline-comment normalizer (lines 1092-1108). -/
def rewriteGroup (style : InlineCommentStyle) (out : List Src)
    (group : List InlineCandidate) : List Src :=
  if group.isEmpty then out
  else
    match style with
    | .singleSpace =>
      group.foldl
        (fun o e => o.set e.lineNumber (e.left ++ " //".data ++ e.comment)) out
    | .aligned =>
      if group.length < 2 then out
      else
        let width := group.foldl (fun mx e => max mx e.left.length) 0
        group.foldl
          (fun o e =>
            let pad := max 2 (width - e.left.length + 2)
            o.set e.lineNumber
              (e.left ++ List.replicate pad ' ' ++ "//".data ++ e.comment))
          out

/-- `applyInlineCommentStyle` from the inline-comment normalizer
(lines 1153-1174). -/
def applyInlineCommentStyle (source : Src) (style : Option InlineCommentStyle)
    (referenceSource : Option Src) : Src :=
  match style with
  | none => source
  | some st =>
    let out := splitLines source
    let out :=
      if st = .aligned then
        match referenceSource with
        | some ref => if ref ≠ [] then restoreDetachedInlineComments out ref else out
        | none => out
      else out
    let candidates :=
      (List.range out.length).filterMap (fun i => parseCandidate (out.getD i []) i)
    let groups := splitGroups candidates out
    joinLines (groups.foldl (rewriteGroup st) out)

/-- The numeric value of a hexadecimal digit character (decoder side of the
`\u00XX` escapes; verification helper, not part of the source). -/
def hexVal (c : Char) : ℕ :=
  match c with
  | '0' => 0 | '1' => 1 | '2' => 2 | '3' => 3 | '4' => 4
  | '5' => 5 | '6' => 6 | '7' => 7 | '8' => 8 | '9' => 9
  | 'a' => 10 | 'b' => 11 | 'c' => 12 | 'd' => 13 | 'e' => 14
  | 'f' => 15 | _ => 0

/-- A decoder for `escapeStr`, used only to prove the escaping injective. -/
def unescape : List Char → Option (List Char)
  | [] => some []
  | c :: rest =>
    if c = '\\' then
      match rest with
      | [] => none
      | d :: rest2 =>
        if d = '"' then (unescape rest2).map (fun l => '"' :: l)
        else if d = '\\' then (unescape rest2).map (fun l => '\\' :: l)
        else if d = 'b' then (unescape rest2).map (fun l => '\x08' :: l)
        else if d = 't' then (unescape rest2).map (fun l => '\t' :: l)
        else if d = 'n' then (unescape rest2).map (fun l => '\n' :: l)
        else if d = 'f' then (unescape rest2).map (fun l => '\x0c' :: l)
        else if d = 'r' then (unescape rest2).map (fun l => '\r' :: l)
        else if d = 'u' then
          match rest2 with
          | z1 :: z2 :: e1 :: e2 :: rest3 =>
            if z1 = '0' then
              if z2 = '0' then
                (unescape rest3).map
                  (fun l => Char.ofNat (16 * hexVal e1 + hexVal e2) :: l)
              else none
            else none
          | _ => none
        else none
    else (unescape rest).map (fun l => c :: l)

/-- A concrete aggregate with three leading multiline-ternary observations
and nothing else, used to probe the ternary evidence floor. -/
def aggTernaryOnly : AggregateSignals :=
  { lineCommentSpace := 0, lineCommentTight := 0, functionsWithJsdoc := 0,
    functionsTotal := 0, commentFramedBlocks := 0, commentPlainBlocks := 0,
    trailingInlineCommentAlignedPairs := 0,
    trailingInlineCommentUnalignedPairs := 0, functionNamesSingle := 0,
    functionNamesMulti := 0, functionExprNamed := 0,
    functionExprAnonymous := 0, ifWithoutBraces := 0, ifWithBraces := 0,
    guardClauseFunctions := 0, nonGuardClauseFunctions := 0, quotesSingle := 0,
    quotesDouble := 0, semicolonsYes := 0, semicolonsNo := 0,
    trailingCommaYes := 0, trailingCommaNo := 0,
    variableDeclarationCommaLeading := 0,
    variableDeclarationCommaTrailing := 0, yodaConditionsYes := 0,
    yodaConditionsNo := 0, ternaryMultilineLeading := 3,
    ternaryMultilineTrailing := 0, indentSpaceLines := 0, indentTabLines := 0,
    indentSpaceSizes := [], switchCaseIndented := 0, switchCaseFlat := 0,
    switchCaseBreakMatchCase := 0, switchCaseBreakIndented := 0,
    multilineCallArgumentCompact := 0, multilineCallArgumentExpanded := 0,
    memberExprAlignedFiles := 0, memberExprIndentedFiles := 0,
    memberExprAligned := 0, memberExprIndented := 0, blankLines := 0,
    totalLines := 0, blankLineBeforeReturnYes := 0,
    blankLineBeforeReturnNo := 0, blankLineBeforeIfYes := 0,
    blankLineBeforeIfNo := 0, lineLengthMax := 0, importSortedGroups := 0,
    importUnsortedGroups := 0 }

/-- Concrete source lines for the member-chain classifier: the continuation
`"  .b"` sits at column 2, strictly left of the object column 4. -/
def c8Lines : List (List Char) := ["abcd".data, "  .b".data]

/-- A member node whose object starts at line 1 column 4 with its property on
line 2. -/
def c8Node : MemberNodeSignal := ⟨some 1, some 4, some 2⟩

/-- A member-chain continuation node for the C9 probe: object at line 1
column 0, property on line 2. -/
def c9MemberNode : MemberViewNode := ⟨some 1, some 0, some 2⟩

/-- An AST view holding only the member node above. -/
def c9Ast : AstView := ⟨[], [], [c9MemberNode], [], [], [], []⟩

/-- The current source of the C9 probe. -/
def c9Current : Src := "a\n.b()".data

/-- A reference source on which the parser fails. -/
def c9Ref : Src := "x(".data

/-- A parser that fails on the reference source but parses the current
source into the member-chain view above. -/
def c9Parse : ParseFn := fun s => if s = c9Current then some c9Ast else none

/-- The invariant of claim C2: a rule's value is `null` exactly when its
status is `undetermined`. -/
def ruleNullIffUndetermined {T : Type} (r : InferredRule T) : Prop :=
  r.value = none ↔ r.status = .undetermined

/-- An enforced binary rule cleared its evidence floor. -/
theorem binaryRule_enforced_minEvidence {T : Type} (yes no minEvidence : ℕ)
    (minConfidence : ℚ) (yesValue noValue : T) (autoFixSafe : Bool)
    (prov : Provenance)
    (h : (binaryRule yes no yesValue noValue minEvidence minConfidence
      autoFixSafe prov).status = .enforced) :
    minEvidence ≤ (binaryRule yes no yesValue noValue minEvidence minConfidence
      autoFixSafe prov).evidenceCount := by
  by_cases h0 : yes + no = 0
  · simp [binaryRule, h0] at h
  · simp [binaryRule, h0] at h ⊢
    exact h.1

/-- C1.  `binaryRule` behaves exactly as specified: with zero observations it
is undetermined with null value, confidence `0` and evidence `0`; otherwise
the winner is the larger count (ties favouring the yes side), the confidence
is `winner / (yes + no)`, the evidence count is the winner, and the rule is
enforced exactly when `winner ≥ minEvidence` and
`confidence ≥ minConfidence`. -/
theorem c1_binaryRule_matches_spec {T : Type} (yes no minEvidence : ℕ)
    (minConfidence : ℚ) (yesValue noValue : T) (autoFixSafe : Bool)
    (prov : Provenance) :
    (yes + no = 0 →
      binaryRule yes no yesValue noValue minEvidence minConfidence autoFixSafe
          prov =
        { value := none, status := .undetermined, confidence := 0,
          evidenceCount := 0, provenance := prov, autoFixSafe := autoFixSafe }) ∧
    (yes + no ≠ 0 →
      (binaryRule yes no yesValue noValue minEvidence minConfidence autoFixSafe
          prov).evidenceCount = max yes no ∧
      (binaryRule yes no yesValue noValue minEvidence minConfidence autoFixSafe
          prov).confidence = ((max yes no : ℕ) : ℚ) / ((yes + no : ℕ) : ℚ) ∧
      ((binaryRule yes no yesValue noValue minEvidence minConfidence autoFixSafe
          prov).status = .enforced ↔
        minEvidence ≤ max yes no ∧
          minConfidence ≤ ((max yes no : ℕ) : ℚ) / ((yes + no : ℕ) : ℚ)) ∧
      (binaryRule yes no yesValue noValue minEvidence minConfidence autoFixSafe
          prov).value =
        (if (binaryRule yes no yesValue noValue minEvidence minConfidence
            autoFixSafe prov).status = .enforced then
          some (if no ≤ yes then yesValue else noValue)
        else none)) := by
  have hwin : (if no ≤ yes then yes else no) = max yes no := by
    split <;> omega
  constructor
  · intro h0
    unfold binaryRule
    simp [h0]
  · intro h0
    unfold binaryRule
    simp only [h0, if_false, ge_iff_le, hwin]
    refine ⟨trivial, trivial, ?_, trivial⟩
    constructor
    · intro hs
      split at hs
      · next hc => exact hc
      · next => simp at hs
    · intro hc
      rw [if_pos hc]

/-- Witness for C1 at `yes = 3`, `no = 1`, `minEvidence = 2`,
`minConfidence = 3/4`. -/
theorem c1_witness :
    (3 + 1 ≠ 0) ∧
    ((binaryRule 3 1 "y" "n" 2 (3 / 4 : ℚ) false .deterministic).evidenceCount =
        max 3 1 ∧
      (binaryRule 3 1 "y" "n" 2 (3 / 4 : ℚ) false
            .deterministic).confidence =
        ((max 3 1 : ℕ) : ℚ) / ((3 + 1 : ℕ) : ℚ) ∧
      ((binaryRule 3 1 "y" "n" 2 (3 / 4 : ℚ) false .deterministic).status =
          .enforced ↔
        2 ≤ max 3 1 ∧
          (3 / 4 : ℚ) ≤ ((max 3 1 : ℕ) : ℚ) / ((3 + 1 : ℕ) : ℚ)) ∧
      (binaryRule 3 1 "y" "n" 2 (3 / 4 : ℚ) false .deterministic).value =
        (if (binaryRule 3 1 "y" "n" 2 (3 / 4 : ℚ) false
            .deterministic).status = .enforced then
          some (if 1 ≤ 3 then "y" else "n")
        else none)) :=
  ⟨by decide,
    (c1_binaryRule_matches_spec 3 1 2 (3 / 4 : ℚ) "y" "n" false
      .deterministic).2 (by decide)⟩

/-- C10.  With at least one observation, a binary rule's confidence lies in
`[1/2, 1]`: the winner is the majority count. -/
theorem c10_confidence_majority_bounds {T : Type} (yes no minEvidence : ℕ)
    (minConfidence : ℚ) (yesValue noValue : T) (autoFixSafe : Bool)
    (prov : Provenance) (h0 : yes + no ≠ 0) :
    (1 / 2 : ℚ) ≤ (binaryRule yes no yesValue noValue minEvidence minConfidence
        autoFixSafe prov).confidence ∧
    (binaryRule yes no yesValue noValue minEvidence minConfidence autoFixSafe
        prov).confidence ≤ 1 := by
  have htot : (0 : ℚ) < ((yes + no : ℕ) : ℚ) := by
    have : 0 < yes + no := Nat.pos_of_ne_zero h0
    exact_mod_cast this
  have hwin : (if no ≤ yes then yes else no) = max yes no := by
    split <;> omega
  unfold binaryRule
  simp only [h0, if_false, ge_iff_le, hwin]
  constructor
  · rw [div_le_div_iff (by norm_num) htot, one_mul]
    have h2 : yes + no ≤ max yes no * 2 := by omega
    exact_mod_cast h2
  · rw [div_le_one htot]
    have h2 : max yes no ≤ yes + no := by omega
    exact_mod_cast h2

/-- Witness for C10 at `yes = 1`, `no = 0`. -/
theorem c10_witness :
    (1 / 2 : ℚ) ≤ (binaryRule 1 0 "y" "n" 1 (1 / 2 : ℚ) false
        .deterministic).confidence ∧
    (binaryRule 1 0 "y" "n" 1 (1 / 2 : ℚ) false .deterministic).confidence ≤ 1 :=
  c10_confidence_majority_bounds 1 0 1 (1 / 2 : ℚ) "y" "n" false .deterministic
    (by decide)

/-- C2.  Every rule built by the inference engine's constructors (binary,
density, line-width, indentation-size) and every rule written by the
external-augmentation path satisfies `value == null ↔ status == undetermined`;
`inferRules` builds all of its 25 per-dimension rules through exactly these
constructors. -/
theorem c2_value_null_iff_undetermined :
    (∀ (T : Type) (yes no minEvidence : ℕ) (minConfidence : ℚ)
        (yesValue noValue : T) (autoFixSafe : Bool) (prov : Provenance),
      ruleNullIffUndetermined
        (binaryRule yes no yesValue noValue minEvidence minConfidence
          autoFixSafe prov)) ∧
    (∀ (blankLines totalLines minEvidence : ℕ) (minConfidence : ℚ),
      ruleNullIffUndetermined
        (densityRule blankLines totalLines minEvidence minConfidence)) ∧
    (∀ (maxLineLength : ℕ) (nonBlankLines : ℤ) (minEvidence : ℕ)
        (minConfidence : ℚ),
      ruleNullIffUndetermined
        (inferLineWidth maxLineLength nonBlankLines minEvidence minConfidence)) ∧
    (∀ (indentationKind : InferredRule String)
        (indentSpaceSizes : List (ℕ × ℕ)) (indentSpaceLines : ℕ),
      ruleNullIffUndetermined
        (indentationSizeRule indentationKind indentSpaceSizes
          indentSpaceLines)) ∧
    (∀ (rulePath : String) (rawSuggestion : Option LlmRuleSuggestion)
        (currentRule : Option (InferredRule JsVal)) (minEvidence : ℕ)
        (minConfidence : ℚ) (sampledFilesLength : ℕ)
        (r : InferredRule JsVal),
      augmentDecision rulePath rawSuggestion currentRule minEvidence
          minConfidence sampledFilesLength = some r →
        ruleNullIffUndetermined r) := by
  refine ⟨?_, ?_, ?_, ?_, ?_⟩
  · intro T yes no minEvidence minConfidence yesValue noValue autoFixSafe prov
    unfold ruleNullIffUndetermined binaryRule
    by_cases h0 : yes + no = 0
    · simp [h0]
    · simp only [h0, if_false]
      split
      · next hc => simp
      · next hc => simp
  · intro blankLines totalLines minEvidence minConfidence
    unfold ruleNullIffUndetermined densityRule
    by_cases h0 : totalLines = 0
    · simp [h0]
    · simp only [h0, if_false]
      split
      · next hc => simp
      · next hc => simp
  · intro maxLineLength nonBlankLines minEvidence minConfidence
    unfold ruleNullIffUndetermined inferLineWidth
    by_cases h0 : maxLineLength = 0 ∨ nonBlankLines.toNat = 0
    · rcases h0 with h | h <;> simp [h]
    · simp only [h0, if_false]
      split
      · next hc => simp
      · next hc => simp
  · intro indentationKind indentSpaceSizes indentSpaceLines
    unfold ruleNullIffUndetermined indentationSizeRule
    by_cases hc : indentationKind.status = .enforced ∧
        indentationKind.value = some "space"
    · simp [hc]
    · simp [hc]
  · intro rulePath rawSuggestion currentRule minEvidence minConfidence
      sampledFilesLength r h
    unfold augmentDecision at h
    cases hd : knownRuleFor rulePath with
    | none => simp [hd] at h
    | some descriptor =>
      simp only [hd] at h
      cases rawSuggestion with
      | none => simp at h
      | some suggestion =>
        simp only at h
        cases hn : normalizeValue (suggestion.value.getD .vnull) descriptor with
        | none => simp [hn] at h
        | some normalizedValue =>
          simp only [hn] at h
          split at h
          · cases h
            unfold ruleNullIffUndetermined llmNextRule
            split
            · next hc => simp
            · next hc => simp
          · cases h

/-- Witness for C2's augmentation conjunct: a concrete accepted suggestion
for `comments.lineCommentSpacing`. -/
theorem c2_witness :
    ruleNullIffUndetermined
      ({ value := some (.vstr "space-after-slashes"), status := .enforced,
         confidence := 1, evidenceCount := 3,
         provenance := .llm_augmented, autoFixSafe := true } :
        InferredRule JsVal) :=
  c2_value_null_iff_undetermined.2.2.2.2 "comments.lineCommentSpacing"
    (some ⟨some (.vstr "space-after-slashes"), some (.fin 1), none⟩)
    none 2 1 3 _
    (by
      norm_num [augmentDecision, knownRuleFor, knownRules, normalizeValue,
        llmNextRule, shouldReplace, clamp01, jsIsInteger]
      simp)

/-- Counterexample to C6: at `minEvidence = 30` the sparse tier is `10` and
the ultra-sparse tier is `6`, yet the multiline-ternary rule is enforced with
only `3` observations - its evidence floor (`max 2 ⌊30/10⌋ = 3`) equals
neither tier. -/
theorem c6_counterexample :
    (inferRules aggTernaryOnly 30 (1 / 2 : ℚ)).multilineTernaryOperatorPlacement.status =
        .enforced ∧
    (inferRules aggTernaryOnly 30
        (1 / 2 : ℚ)).multilineTernaryOperatorPlacement.evidenceCount = 3 ∧
    sparseEvidence 30 = 10 ∧ ultraSparseEvidence 30 = 6 ∧
    ¬(3 = sparseEvidence 30 ∨ 3 = ultraSparseEvidence 30) := by
  refine ⟨?_, ?_, by decide, by decide, by decide⟩
  · norm_num [inferRules, binaryRule, aggTernaryOnly, ternaryEvidenceFloor]
  · norm_num [inferRules, binaryRule, aggTernaryOnly, ternaryEvidenceFloor]

/-- C6 as amended: the reduced tiers `max 2 ⌊m/3⌋` and `max 2 ⌊m/5⌋` exist,
but the multiline-ternary rule uses its own, lower floor `max 2 ⌊m/10⌋`:
enforcement of that rule only guarantees evidence at or above this floor,
which never exceeds the ultra-sparse tier (itself at most the sparse tier)
and in general equals neither. -/
theorem c6_amended_ternary_floor (aggregate : AggregateSignals)
    (minEvidence : ℕ) (minConfidence : ℚ) :
    ((inferRules aggregate minEvidence
          minConfidence).multilineTernaryOperatorPlacement.status = .enforced →
      ternaryEvidenceFloor minEvidence ≤
        (inferRules aggregate minEvidence
          minConfidence).multilineTernaryOperatorPlacement.evidenceCount) ∧
    ternaryEvidenceFloor minEvidence ≤ ultraSparseEvidence minEvidence ∧
    ultraSparseEvidence minEvidence ≤ sparseEvidence minEvidence := by
  refine ⟨?_, ?_, ?_⟩
  · have hproj : (inferRules aggregate minEvidence
        minConfidence).multilineTernaryOperatorPlacement =
        binaryRule aggregate.ternaryMultilineLeading
          aggregate.ternaryMultilineTrailing "leading" "trailing"
          (ternaryEvidenceFloor minEvidence) minConfidence false
          .deterministic := rfl
    rw [hproj]
    exact binaryRule_enforced_minEvidence _ _ _ _ _ _ _ _
  · unfold ternaryEvidenceFloor ultraSparseEvidence
    omega
  · unfold ultraSparseEvidence sparseEvidence
    omega

/-- Witness for C6's amended statement at the concrete aggregate and
`minEvidence = 30`. -/
theorem c6_witness :
    ternaryEvidenceFloor 30 ≤
      (inferRules aggTernaryOnly 30
        (1 / 2 : ℚ)).multilineTernaryOperatorPlacement.evidenceCount ∧
    ternaryEvidenceFloor 30 ≤ ultraSparseEvidence 30 ∧
    ultraSparseEvidence 30 ≤ sparseEvidence 30 := by
  have h := c6_amended_ternary_floor aggTernaryOnly 30 (1 / 2 : ℚ)
  exact ⟨h.1 (by norm_num [inferRules, binaryRule, aggTernaryOnly,
    ternaryEvidenceFloor]), h.2.1, h.2.2⟩

/-- Counterexample to C7.  First conjunct: `shouldReplace` accepts a
suggestion when both the current rule and the suggestion are `undetermined`
and the suggestion's confidence is merely `0.05` higher - the claim allows a
replacement only when the suggestion is enforced or both rules are.  Last
conjuncts: for the numeric dimension `syntax.lineWidth`, a negative finite
suggested value is not rejected but clamped to `0`. -/
theorem c7_counterexample :
    shouldReplace
        (some { value := none, status := .undetermined, confidence := 0,
                evidenceCount := 0, provenance := .deterministic,
                autoFixSafe := false })
        { value := none, status := .undetermined, confidence := (1 / 10 : ℚ),
          evidenceCount := 0, provenance := .llm_augmented,
          autoFixSafe := false } = true ∧
    knownRuleFor "syntax.lineWidth" = some ⟨[], false⟩ ∧
    normalizeValue (.vnum (.fin (-1 / 2 : ℚ))) ⟨[], false⟩ =
      some (.vnum (.fin 0)) := by
  refine ⟨?_, ?_, ?_⟩
  · norm_num [shouldReplace]
  · simp [knownRuleFor, knownRules]
  · norm_num [normalizeValue, jsRound]

/-- C7 as amended: a suggestion replaces the current rule iff the current
rule is missing, or the current rule is not enforced while the suggestion is,
or both have the same status (including both undetermined) and the
suggestion's confidence is at least the current one plus `0.05`.  Unknown
dimension names are ignored, non-enumerated values of enumerated dimensions
are rejected, and for numeric dimensions non-numeric suggestions are rejected
while finite ones are rounded and clamped below at `0` (negative values
included). -/
theorem c7_amended_augmentation :
    (∀ next : InferredRule JsVal, shouldReplace none next = true) ∧
    (∀ ex next : InferredRule JsVal,
      shouldReplace (some ex) next = true ↔
        ((ex.status ≠ .enforced ∧ next.status = .enforced) ∨
          (ex.status = next.status ∧
            ex.confidence + (0.05 : ℚ) ≤ next.confidence))) ∧
    (∀ (rulePath : String) (raw : Option LlmRuleSuggestion)
        (cur : Option (InferredRule JsVal)) (me : ℕ) (mc : ℚ) (sfl : ℕ),
      knownRuleFor rulePath = none →
        augmentDecision rulePath raw cur me mc sfl = none) ∧
    (∀ (rulePath : String) (d : RuleDescriptor) (s : LlmRuleSuggestion)
        (cur : Option (InferredRule JsVal)) (me : ℕ) (mc : ℚ) (sfl : ℕ),
      knownRuleFor rulePath = some d →
        normalizeValue (s.value.getD .vnull) d = none →
          augmentDecision rulePath (some s) cur me mc sfl = none) ∧
    (∀ (v : JsVal) (d : RuleDescriptor), d.values ≠ [] →
      (normalizeValue v d = none ↔ v ∉ d.values)) ∧
    (∀ (d : RuleDescriptor) (q : ℚ), d.values = [] →
      normalizeValue (.vnum (.fin q)) d =
        some (.vnum (.fin ((max 0 (jsRound q) : ℤ) : ℚ)))) ∧
    (∀ (d : RuleDescriptor) (v : JsVal), d.values = [] →
      (∀ q : ℚ, v ≠ .vnum (.fin q)) → normalizeValue v d = none) := by
  refine ⟨?_, ?_, ?_, ?_, ?_, ?_, ?_⟩
  · intro next
    rfl
  · intro ex next
    unfold shouldReplace
    dsimp only
    split_ifs with h1 h2
    · exact iff_of_true rfl (Or.inl h1)
    · exact iff_of_true rfl (Or.inr h2)
    · constructor
      · intro h
        cases h
      · intro h
        rcases h with h | h
        · exact absurd h h1
        · exact absurd h h2
  · intro rulePath raw cur me mc sfl h
    unfold augmentDecision
    simp [h]
  · intro rulePath d s cur me mc sfl hd hn
    unfold augmentDecision
    simp [hd, hn]
  · intro v d hd
    unfold normalizeValue
    rw [if_neg hd]
    by_cases hmem : v ∈ d.values
    · simp [List.elem_iff, hmem]
    · simp [List.elem_iff, hmem]
  · intro d q hd
    unfold normalizeValue
    rw [if_pos hd]
  · intro d v hd hv
    unfold normalizeValue
    rw [if_pos hd]
    match v with
    | .vstr s => rfl
    | .vbool b => rfl
    | .vnull => rfl
    | .vnum .nan => rfl
    | .vnum .inf => rfl
    | .vnum .ninf => rfl
    | .vnum (.fin q) => exact absurd rfl (hv q)

/-- Witness for C7's amended statement: an unknown dimension name is
ignored, and a rejected value yields no write. -/
theorem c7_witness :
    augmentDecision "bogus.rule" none none 2 (3 / 4 : ℚ) 1 = none ∧
    augmentDecision "syntax.quotes" (some ⟨some (.vstr "triple"), none, none⟩)
      none 2 (3 / 4 : ℚ) 1 = none :=
  ⟨c7_amended_augmentation.2.2.1 "bogus.rule" none none 2 (3 / 4 : ℚ) 1
      (by simp [knownRuleFor, knownRules]),
    c7_amended_augmentation.2.2.2.1 "syntax.quotes"
      ⟨[.vstr "single", .vstr "double"], false⟩
      ⟨some (.vstr "triple"), none, none⟩ none 2 (3 / 4 : ℚ) 1
      (by simp [knownRuleFor, knownRules])
      (by simp [normalizeValue])⟩

/-- Counterexample to C8: a continuation line at column 2 below an object
starting at column 4 is counted as *aligned* by the extractor (the code
compares with `<=`), while the claim's `==` criterion would classify it as
indented. -/
theorem c8_counterexample :
    memberContinuationContext c8Lines c8Node = some (2, 4) ∧
    classifyMemberContinuation c8Lines c8Node = some true ∧ (2 : ℕ) ≠ 4 := by
  refine ⟨by decide, by decide, by decide⟩

/-- C8 as amended: whenever the visitor reaches the classification step, the
continuation is counted as aligned iff its column is *less than or equal to*
the object's start column, and as indented otherwise. -/
theorem c8_amended_member_alignment (lines : List (List Char))
    (node : MemberNodeSignal) (c o : ℕ)
    (h : memberContinuationContext lines node = some (c, o)) :
    (classifyMemberContinuation lines node = some true ↔ c ≤ o) ∧
    (classifyMemberContinuation lines node = some false ↔ ¬(c ≤ o)) := by
  have key : classifyMemberContinuation lines node =
      (memberContinuationContext lines node).map (fun p => decide (p.1 ≤ p.2)) := by
    rcases node with ⟨osl, osc, ml⟩
    cases osl with
    | none => rfl
    | some objectStartLine =>
      cases osc with
      | none => rfl
      | some objectStartColumn =>
        cases ml with
        | none => rfl
        | some memberLine =>
          dsimp only [classifyMemberContinuation, memberContinuationContext]
          by_cases h1 : memberLine ≤ objectStartLine
          · simp [h1]
          · simp only [h1, if_false]
            cases lines.get? (memberLine - 1) with
            | none => rfl
            | some continuation =>
              dsimp only
              by_cases h2 : continuation = []
              · simp [h2]
              · simp only [h2, if_false]
                by_cases h3 : (continuation.dropWhile isJsSpace).head? ≠ some '.'
                · simp only [if_pos h3]
                  rfl
                · simp only [if_neg h3]
                  rfl
  rw [key, h]
  constructor
  · by_cases hco : c ≤ o <;> simp [hco]
  · by_cases hco : c ≤ o <;> simp [hco]

/-- Witness for C8's amended statement at the concrete input of the
counterexample (column 2 against object column 4). -/
theorem c8_witness :
    classifyMemberContinuation c8Lines c8Node = some true :=
  ((c8_amended_member_alignment c8Lines c8Node 2 4 (by decide)).1).mpr
    (by decide)

/-- Inserting an element that dominates the whole list places it in front. -/
theorem orderedInsert_eq_cons (a : Replacement) (l : List Replacement)
    (hall : ∀ x ∈ l, repGE a x) : List.orderedInsert repGE a l = a :: l := by
  cases l with
  | nil => rfl
  | cons b t =>
    simp [List.orderedInsert, hall b (List.mem_cons_self b t)]

/-- Filtering commutes with `orderedInsert` on a sorted list. -/
theorem filter_orderedInsert (p : Replacement → Bool) (a : Replacement) :
    ∀ l : List Replacement, l.Sorted repGE →
      (List.orderedInsert repGE a l).filter p =
        if p a then List.orderedInsert repGE a (l.filter p) else l.filter p := by
  intro l
  induction l with
  | nil =>
    intro _
    simp only [List.orderedInsert, List.filter]
    split <;> simp_all [List.orderedInsert]
  | cons b t IH =>
    intro hsort
    by_cases hr : repGE a b
    · rw [List.orderedInsert, if_pos hr]
      by_cases pa : p a
      · by_cases pb : p b
        · simp [List.filter, pa, pb, List.orderedInsert, hr]
        · simp only [List.filter, pa, pb]
          rw [orderedInsert_eq_cons]
          · simp [List.filter, pb]
          · intro x hx
            have hx' : x ∈ t := List.mem_of_mem_filter hx
            have h1 : x.start ≤ b.start := List.rel_of_sorted_cons hsort x hx'
            exact le_trans h1 hr
      · by_cases pb : p b <;> simp [List.filter, pa, pb, List.orderedInsert, hr]
    · rw [List.orderedInsert, if_neg hr]
      have IH' := IH hsort.of_cons
      by_cases pa : p a
      · by_cases pb : p b
        · simp only [List.filter, pb, pa] at IH' ⊢
          simp [IH', List.orderedInsert, hr]
        · simp only [List.filter, pb, pa] at IH' ⊢
          simp [IH']
      · by_cases pb : p b <;> simp only [List.filter, pb, pa] at IH' ⊢ <;>
          simp [IH', List.orderedInsert, hr]

/-- Filtering commutes with the stable insertion sort used by
`applyReplacements`. -/
theorem filter_insertionSort (p : Replacement → Bool) :
    ∀ l : List Replacement,
      (List.insertionSort repGE l).filter p =
        List.insertionSort repGE (l.filter p) := by
  intro l
  induction l with
  | nil => rfl
  | cons a t IH =>
    by_cases pa : p a
    · simp only [List.insertionSort, List.filter, pa]
      rw [filter_orderedInsert p a (List.insertionSort repGE t)
        (List.sorted_insertionSort repGE t), if_pos pa, IH]
    · simp only [List.insertionSort, List.filter, pa]
      rw [filter_orderedInsert p a (List.insertionSort repGE t)
        (List.sorted_insertionSort repGE t), if_neg pa, IH]

/-- The application fold ignores dropped (invalid) replacements. -/
theorem foldl_applyOne_filter :
    ∀ (l : List Replacement) (s : Src),
      l.foldl applyOneReplacement s =
        (l.filter validReplacement).foldl applyOneReplacement s := by
  intro l
  induction l with
  | nil => intro s; rfl
  | cons r t IH =>
    intro s
    by_cases hv : validReplacement r
    · simp only [List.foldl, List.filter, hv]
      exact IH _
    · simp only [List.foldl, List.filter, hv]
      have : applyOneReplacement s r = s := by
        unfold applyOneReplacement
        rw [if_neg (by simp [hv])]
      rw [this]
      exact IH _

/-- Sorted lists with pairwise-distinct starts are equal once they are
permutations of each other. -/
theorem perm_sorted_startNe_eq :
    ∀ l1 l2 : List Replacement, l1.Perm l2 → l1.Sorted repGE →
      l2.Sorted repGE → l1.Pairwise (fun a b => a.start ≠ b.start) → l1 = l2 := by
  intro l1
  induction l1 with
  | nil =>
    intro l2 hp _ _ _
    exact (List.Perm.eq_nil hp.symm).symm
  | cons a t IH =>
    intro l2 hp hs1 hs2 hne
    cases l2 with
    | nil => simp at hp
    | cons b t2 =>
      have hab : a = b := by
        have hmem_a : a ∈ b :: t2 := hp.mem_iff.1 (List.mem_cons_self a t)
        have hmem_b : b ∈ a :: t := hp.mem_iff.2 (List.mem_cons_self b t2)
        rcases List.mem_cons.1 hmem_a with h | ha2
        · exact h
        rcases List.mem_cons.1 hmem_b with h | hb1
        · exact h.symm
        have h1 : b.start ≤ a.start := List.rel_of_sorted_cons hs1 b hb1
        have h2 : a.start ≤ b.start := List.rel_of_sorted_cons hs2 a ha2
        have heq : a.start = b.start := le_antisymm h2 h1
        exact absurd heq ((List.pairwise_cons.1 hne).1 b hb1)
      subst hab
      have ht : t.Perm t2 := hp.cons_inv
      rw [IH t2 ht hs1.of_cons hs2.of_cons (List.pairwise_cons.1 hne).2]

/-- `applyReplacements` is the fold of the sorted list in every case. -/
theorem applyReplacements_eq_foldl (s : Src) (l : List Replacement) :
    applyReplacements s l =
      (List.insertionSort repGE l).foldl applyOneReplacement s := by
  cases l with
  | nil => rfl
  | cons a t => rfl

/-- Counterexample to C4: a zero-length replacement (`start = end = 1`) is
*not* dropped - it is applied as an insertion, so the result differs from the
input. -/
theorem c4_counterexample :
    applyReplacements "ab".data [⟨1, 1, "X".data⟩] = "aXb".data ∧
    applyReplacements "ab".data [⟨1, 1, "X".data⟩] ≠ "ab".data := by
  refine ⟨by decide, by decide⟩

/-- C4 as amended: replacements are applied in one pass in descending start
order; a replacement is dropped exactly when its start is negative or its
end precedes its start (zero-length ranges are applied, as insertions); and
for a pairwise-disjoint set of positive-length replacements the result does
not depend on the order of the input list. -/
theorem c4_amended_replacement_applier :
    (∀ (s : Src) (l : List Replacement),
      applyReplacements s l = applyReplacements s (l.filter validReplacement)) ∧
    (∀ (s : Src) (l1 l2 : List Replacement), l1.Perm l2 →
      l1.Pairwise (fun a b => a.stop ≤ b.start ∨ b.stop ≤ a.start) →
      (∀ r ∈ l1, r.start < r.stop) →
      applyReplacements s l1 = applyReplacements s l2) := by
  constructor
  · intro s l
    rw [applyReplacements_eq_foldl, applyReplacements_eq_foldl,
      foldl_applyOne_filter, filter_insertionSort]
  · intro s l1 l2 hperm hdisj hpos
    have hne : l1.Pairwise (fun a b => a.start ≠ b.start) := by
      refine List.Pairwise.imp_of_mem ?_ hdisj
      intro a b ha hb hd
      have hpa := hpos a ha
      have hpb := hpos b hb
      rcases hd with h | h <;> intro hctr <;> omega
    have hS : List.insertionSort repGE l1 = List.insertionSort repGE l2 := by
      apply perm_sorted_startNe_eq
      · exact (List.perm_insertionSort repGE l1).trans
          (hperm.trans (List.perm_insertionSort repGE l2).symm)
      · exact List.sorted_insertionSort repGE l1
      · exact List.sorted_insertionSort repGE l2
      · exact ((List.perm_insertionSort repGE l1).pairwise_iff
          (fun h => Ne.symm h)).2 hne
    rw [applyReplacements_eq_foldl, applyReplacements_eq_foldl, hS]

/-- Witness for C4: two disjoint positive-length replacements applied in both
orders give the same result. -/
theorem c4_witness :
    applyReplacements "abcd".data [⟨0, 1, "Z".data⟩, ⟨2, 3, "W".data⟩] =
      applyReplacements "abcd".data [⟨2, 3, "W".data⟩, ⟨0, 1, "Z".data⟩] :=
  c4_amended_replacement_applier.2 "abcd".data
    [⟨0, 1, "Z".data⟩, ⟨2, 3, "W".data⟩] [⟨2, 3, "W".data⟩, ⟨0, 1, "Z".data⟩]
    (List.Perm.swap _ _ _) (by decide) (by decide)

/-- `applyMemberChainIndentation` is the identity when the parse fails. -/
theorem applyMemberChainIndentation_parse_none (parse : ParseFn) (source : Src)
    (style : MemberStyle) (indentKind : IndentKind) (indentSize : ℕ)
    (h : parse source = none) :
    applyMemberChainIndentation parse source style indentKind indentSize =
      source := by
  unfold applyMemberChainIndentation
  rw [h]

/-- `applyReferenceMemberChainBreaks` is the identity when the parse fails. -/
theorem applyReferenceMemberChainBreaks_parse_none (parse : ParseFn)
    (source : Src) (style : MemberStyle) (indentKind : IndentKind)
    (indentSize : ℕ) (layouts : List (List Char × List ChainLayout))
    (h : parse source = none) :
    applyReferenceMemberChainBreaks parse source style indentKind indentSize
      layouts = source := by
  unfold applyReferenceMemberChainBreaks
  split
  · rfl
  · rw [h]

/-- `applyReferenceTernaryLayouts` is the identity when the parse fails. -/
theorem applyReferenceTernaryLayouts_parse_none (parse : ParseFn) (source : Src)
    (placement : TernaryPlacement) (indentKind : IndentKind) (indentSize : ℕ)
    (layouts : List (List Char × List ReferenceTernaryLayout))
    (h : parse source = none) :
    applyReferenceTernaryLayouts parse source placement indentKind indentSize
      layouts = source := by
  unfold applyReferenceTernaryLayouts
  split
  · rfl
  · rw [h]

/-- Counterexample to C9: with an unparsable reference source, member-chain
normalization still rewrites the current source through its
reference-independent fallback pass, so it is not a no-op. -/
theorem c9_counterexample :
    c9Parse c9Ref = none ∧
    applyMemberExpressionIndentation c9Parse c9Current (some .indented) .space 2
        (some c9Ref) ≠ c9Current := by
  refine ⟨rfl, by decide⟩

/-- C9 as amended: every normalizer leaves the source unchanged when the rule
value is null, and when the *current* source fails to parse; the ternary
normalizer is additionally a no-op without a reference source or when the
reference fails to parse.  Member-chain normalization, however, still runs
its reference-independent fallback when only the reference is unparsable
(see the counterexample). -/
theorem c9_amended_normalizer_noop :
    (∀ (parse : ParseFn) (source : Src),
      applySingleLineIfStyle parse source none = source) ∧
    (∀ (parse : ParseFn) (source : Src) (style : Option IfBraceStyle),
      parse source = none → applySingleLineIfStyle parse source style = source) ∧
    (∀ (parse : ParseFn) (source : Src) (indentKind : IndentKind)
        (indentSize : ℕ),
      applySwitchCaseBreakIndentation parse source none indentKind indentSize =
        source) ∧
    (∀ (parse : ParseFn) (source : Src) (style : Option SwitchBreakStyle)
        (indentKind : IndentKind) (indentSize : ℕ), parse source = none →
      applySwitchCaseBreakIndentation parse source style indentKind indentSize =
        source) ∧
    (∀ (parse : ParseFn) (source : Src) (indentKind : IndentKind)
        (indentSize : ℕ) (referenceSource : Option Src),
      applyMemberExpressionIndentation parse source none indentKind indentSize
        referenceSource = source) ∧
    (∀ (parse : ParseFn) (source : Src) (style : Option MemberStyle)
        (indentKind : IndentKind) (indentSize : ℕ)
        (referenceSource : Option Src), parse source = none →
      applyMemberExpressionIndentation parse source style indentKind indentSize
        referenceSource = source) ∧
    (∀ (parse : ParseFn) (source : Src),
      applyVariableDeclarationCommaPlacement parse source none = source) ∧
    (∀ (parse : ParseFn) (source : Src) (placement : Option CommaPlacement),
      parse source = none →
        applyVariableDeclarationCommaPlacement parse source placement =
          source) ∧
    (∀ (parse : ParseFn) (source : Src),
      applyMultilineCallArgumentLayout parse source none = source) ∧
    (∀ (parse : ParseFn) (source : Src) (layout : Option CallLayout),
      parse source = none →
        applyMultilineCallArgumentLayout parse source layout = source) ∧
    (∀ (parse : ParseFn) (source : Src) (indentKind : IndentKind)
        (indentSize : ℕ) (referenceSource : Option Src),
      applyTernaryLayout parse source none indentKind indentSize
        referenceSource = source) ∧
    (∀ (parse : ParseFn) (source : Src) (placement : Option TernaryPlacement)
        (indentKind : IndentKind) (indentSize : ℕ)
        (referenceSource : Option Src), parse source = none →
      applyTernaryLayout parse source placement indentKind indentSize
        referenceSource = source) ∧
    (∀ (parse : ParseFn) (source : Src) (placement : TernaryPlacement)
        (indentKind : IndentKind) (indentSize : ℕ),
      applyTernaryLayout parse source (some placement) indentKind indentSize
        none = source) ∧
    (∀ (parse : ParseFn) (source : Src) (placement : TernaryPlacement)
        (indentKind : IndentKind) (indentSize : ℕ) (ref : Src),
      parse ref = none →
        applyTernaryLayout parse source (some placement) indentKind indentSize
          (some ref) = source) ∧
    (∀ (source : Src) (referenceSource : Option Src),
      applyInlineCommentStyle source none referenceSource = source) := by
  refine ⟨?_, ?_, ?_, ?_, ?_, ?_, ?_, ?_, ?_, ?_, ?_, ?_, ?_, ?_, ?_⟩
  · intro parse source
    rfl
  · intro parse source style h
    unfold applySingleLineIfStyle
    split
    · rfl
    · rw [h]
  · intro parse source indentKind indentSize
    rfl
  · intro parse source style indentKind indentSize h
    cases style with
    | none => rfl
    | some st =>
      unfold applySwitchCaseBreakIndentation
      rw [h]
  · intro parse source indentKind indentSize referenceSource
    rfl
  · intro parse source style indentKind indentSize referenceSource h
    cases style with
    | none => rfl
    | some st =>
      unfold applyMemberExpressionIndentation
      cases referenceSource with
      | none =>
        exact applyMemberChainIndentation_parse_none parse source st indentKind
          indentSize h
      | some ref =>
        dsimp only
        by_cases hr : ref = []
        · rw [if_neg (by simp [hr])]
          exact applyMemberChainIndentation_parse_none parse source st
            indentKind indentSize h
        · rw [if_pos hr,
            applyReferenceMemberChainBreaks_parse_none parse source st
              indentKind indentSize _ h]
          exact applyMemberChainIndentation_parse_none parse source st
            indentKind indentSize h
  · intro parse source
    rfl
  · intro parse source placement h
    cases placement with
    | none => rfl
    | some pl =>
      unfold applyVariableDeclarationCommaPlacement
      rw [h]
  · intro parse source
    rfl
  · intro parse source layout h
    unfold applyMultilineCallArgumentLayout
    split
    · rfl
    · rw [h]
  · intro parse source indentKind indentSize referenceSource
    rfl
  · intro parse source placement indentKind indentSize referenceSource h
    cases placement with
    | none => rfl
    | some pl =>
      unfold applyTernaryLayout
      cases referenceSource with
      | none => rfl
      | some ref =>
        dsimp only
        by_cases hr : ref = []
        · rw [if_pos hr]
        · rw [if_neg hr]
          exact applyReferenceTernaryLayouts_parse_none parse source pl
            indentKind indentSize _ h
  · intro parse source placement indentKind indentSize
    rfl
  · intro parse source placement indentKind indentSize ref h
    unfold applyTernaryLayout
    dsimp only
    by_cases hr : ref = []
    · rw [if_pos hr]
    · rw [if_neg hr]
      unfold collectReferenceTernaryLayouts
      rw [h]
      unfold applyReferenceTernaryLayouts
      rfl
  · intro source referenceSource
    rfl

/-- Witness for C9's amended statement: a parser that always fails leaves a
concrete source unchanged. -/
theorem c9_witness :
    applySingleLineIfStyle (fun _ => none) "if (a)\n  b();".data
      (some .omit) = "if (a)\n  b();".data :=
  c9_amended_normalizer_noop.2.1 (fun _ => none) "if (a)\n  b();".data
    (some .omit) rfl

/-- `hexVal` inverts `hexChar` on digit values. -/
theorem hexVal_hexChar : ∀ n < 16, hexVal (hexChar n) = n := by decide

/-- If the head is not a backslash the decoder copies it and recurses. -/
theorem unescape_cons_ne (c : Char) (rest : List Char) (h : ¬ c = '\\') :
    unescape (c :: rest) = (unescape rest).map (fun l => c :: l) := by
  rw [unescape.eq_def]
  exact if_neg h

/-- The decoder inverts the `JSON.stringify` string escaping. -/
theorem unescape_escapeStr : ∀ s : List Char, unescape (escapeStr s) = some s := by
  intro s
  induction s with
  | nil => rfl
  | cons c s' IH =>
    show unescape (escapeChar c ++ escapeStr s') = some (c :: s')
    unfold escapeChar
    split_ifs with h1 h2 h3 h4 h5 h6 h7 h8
    · subst h1
      simp only [List.cons_append, List.nil_append]
      rw [unescape.eq_def]
      simp [IH]
    · subst h2
      simp only [List.cons_append, List.nil_append]
      rw [unescape.eq_def]
      simp [IH]
    · subst h3
      simp only [List.cons_append, List.nil_append]
      rw [unescape.eq_def]
      simp [IH]
    · subst h4
      simp only [List.cons_append, List.nil_append]
      rw [unescape.eq_def]
      simp [IH]
    · subst h5
      simp only [List.cons_append, List.nil_append]
      rw [unescape.eq_def]
      simp [IH]
    · subst h6
      simp only [List.cons_append, List.nil_append]
      rw [unescape.eq_def]
      simp [IH]
    · subst h7
      simp only [List.cons_append, List.nil_append]
      rw [unescape.eq_def]
      simp [IH]
    · simp only [List.cons_append, List.nil_append]
      rw [unescape.eq_def]
      simp only [if_pos rfl]
      have e1 : hexVal (hexChar (c.toNat / 16)) = c.toNat / 16 :=
        hexVal_hexChar _ (by omega)
      have e2 : hexVal (hexChar (c.toNat % 16)) = c.toNat % 16 :=
        hexVal_hexChar _ (by omega)
      simp [IH, e1, e2, Nat.div_add_mod, Char.ofNat_toNat]
    · rw [List.cons_append, List.nil_append, unescape_cons_ne c _ h2, IH]
      rfl

/-- String escaping is injective. -/
theorem escapeStr_injective {s t : List Char} (h : escapeStr s = escapeStr t) :
    s = t := by
  have hs := unescape_escapeStr s
  rw [h, unescape_escapeStr t] at hs
  exact (Option.some.inj hs).symm

/-- Quoted string rendering is injective. -/
theorem quoteStr_injective {s t : List Char} (h : quoteStr s = quoteStr t) :
    s = t := by
  unfold quoteStr at h
  have h2 : escapeStr s ++ ['"'] = escapeStr t ++ ['"'] :=
    (List.cons.injEq _ _ _ _).mp h |>.2
  exact escapeStr_injective (List.append_cancel_right h2)

/-- Shape-equal values sanitize identically, by strong induction on size. -/
theorem shapeAux : ∀ N : ℕ,
    (∀ a b : Json, sizeOf a + sizeOf b ≤ N → sameShape a b = true →
      sanitize a = sanitize b) ∧
    (∀ xs ys : JsonItems, sizeOf xs + sizeOf ys ≤ N → sameShapeItems xs ys = true →
      sanitizeItems xs = sanitizeItems ys) ∧
    (∀ fs gs : JsonFields, sizeOf fs + sizeOf gs ≤ N → sameShapeFields fs gs = true →
      sanitizeFields fs = sanitizeFields gs) := by
  intro N
  induction N with
  | zero =>
    refine ⟨fun a b hsz _ => absurd hsz ?_, fun xs ys hsz _ => absurd hsz ?_,
      fun fs gs hsz _ => absurd hsz ?_⟩
    · cases a <;> simp
    · cases xs <;> simp
    · cases fs <;> simp
  | succ N IH =>
    obtain ⟨IH1, IH2, IH3⟩ := IH
    refine ⟨?_, ?_, ?_⟩
    · intro a b hsz h
      cases a <;> cases b <;>
        simp only [sameShape, decide_eq_true_eq, Bool.false_eq_true] at h
      · rfl
      · rw [h]
      · rw [h]
      · rw [h]
      · rename_i xs ys
        simp only [sanitize]
        exact congrArg Json.jarr (IH2 xs ys (by simp at hsz ⊢; omega) h)
      · rename_i fs gs
        simp only [sanitize]
        exact congrArg Json.jobj (IH3 fs gs (by simp at hsz ⊢; omega) h)
    · intro xs ys hsz h
      cases xs <;> cases ys <;>
        simp only [sameShapeItems, Bool.and_eq_true, Bool.false_eq_true] at h
      · rfl
      · rename_i a as b bs
        obtain ⟨h1, h2⟩ := h
        simp only [sanitizeItems]
        rw [IH1 a b (by simp at hsz ⊢; omega) h1,
          IH2 as bs (by simp at hsz ⊢; omega) h2]
    · intro fs gs hsz h
      cases fs with
      | nil =>
        cases gs with
        | nil => rfl
        | cons k2 v2 tl2 =>
          simp only [sameShapeFields] at h
          by_cases hb : bannedKey k2 = true
          · simp only [hb, if_true] at h
            have hrec := IH3 .nil tl2 (by simp at hsz ⊢; omega) h
            rw [hrec]
            simp [sanitizeFields, hb]
          · rw [Bool.not_eq_true] at hb
            simp [hb] at h
      | cons k v tl =>
        rw [sameShapeFields.eq_def] at h
        dsimp only at h
        by_cases hb : bannedKey k = true
        · simp only [hb, if_true] at h
          have hrec := IH3 tl gs (by simp at hsz ⊢; omega) h
          simp only [sanitizeFields, hb, if_true]
          exact hrec
        · rw [Bool.not_eq_true] at hb
          simp only [hb, Bool.false_eq_true, if_false] at h
          cases gs with
          | nil => simp at h
          | cons k2 v2 tl2 =>
            by_cases hb2 : bannedKey k2 = true
            · simp only [hb2, if_true] at h
              have hrec := IH3 (.cons k v tl) tl2 (by simp at hsz ⊢; omega) h
              rw [hrec]
              simp [sanitizeFields, hb2]
            · rw [Bool.not_eq_true] at hb2
              simp only [hb2, Bool.false_eq_true, if_false, Bool.and_eq_true,
                decide_eq_true_eq] at h
              obtain ⟨⟨hk, hv⟩, ht⟩ := h
              subst hk
              simp only [sanitizeFields, hb, hb2, Bool.false_eq_true, if_false]
              rw [IH1 v v2 (by simp at hsz ⊢; omega) hv,
                IH3 tl tl2 (by simp at hsz ⊢; omega) ht]

/-- A field reached through a non-banned key survives sanitization, before and
after `setKeyF`. -/
theorem sanitizeFields_getKey_ne_nil : ∀ (fs : JsonFields) (k : List Char)
    (w x : Json), bannedKey k = false → getKeyF fs k = some w →
    sanitizeFields fs ≠ .nil ∧ sanitizeFields (setKeyF fs k x) ≠ .nil
  | .nil, k, w, x, hb, hg => by simp [getKeyF] at hg
  | .cons k' v' tl, k, w, x, hb, hg => by
    by_cases hk : k' = k
    · subst hk
      simp only [setKeyF, if_pos rfl]
      constructor <;> simp [sanitizeFields, hb]
    · simp only [getKeyF, if_neg hk] at hg
      simp only [setKeyF, if_neg hk]
      by_cases hb' : bannedKey k' = true
      · simpa [sanitizeFields, hb'] using
          sanitizeFields_getKey_ne_nil tl k w x hb hg
      · rw [Bool.not_eq_true] at hb'
        constructor <;> simp [sanitizeFields, hb']
termination_by fs => sizeOf fs

/-- Replacing the value reached through a non-banned key rewrites exactly the
corresponding segment of the rendered field list. -/
theorem stringifyFields_set : ∀ (fs : JsonFields) (k : List Char) (w x : Json),
    bannedKey k = false → getKeyF fs k = some w →
    ∃ P S, stringifyFields (sanitizeFields fs) =
        P ++ stringify (sanitize w) ++ S ∧
      stringifyFields (sanitizeFields (setKeyF fs k x)) =
        P ++ stringify (sanitize x) ++ S
  | .nil, k, w, x, hb, hg => by simp [getKeyF] at hg
  | .cons k' v' tl, k, w, x, hb, hg => by
    by_cases hk : k' = k
    · subst hk
      simp [getKeyF] at hg
      subst hg
      simp only [setKeyF, if_pos rfl]
      simp only [sanitizeFields, hb, Bool.false_eq_true, if_false]
      cases htl : sanitizeFields tl with
      | nil =>
        refine ⟨quoteStr k' ++ [':'], [], ?_, ?_⟩ <;>
          simp [stringifyFields]
      | cons k2 v2 tl2 =>
        refine ⟨quoteStr k' ++ [':'],
          ',' :: stringifyFields (.cons k2 v2 tl2), ?_, ?_⟩ <;>
          simp [stringifyFields]
    · simp only [getKeyF, if_neg hk] at hg
      obtain ⟨P, S, h1, h2⟩ := stringifyFields_set tl k w x hb hg
      have hne := sanitizeFields_getKey_ne_nil tl k w x hb hg
      simp only [setKeyF, if_neg hk]
      by_cases hb' : bannedKey k' = true
      · simp only [sanitizeFields, hb', if_true]
        exact ⟨P, S, h1, h2⟩
      · rw [Bool.not_eq_true] at hb'
        simp only [sanitizeFields, hb', Bool.false_eq_true, if_false]
        cases htl : sanitizeFields tl with
        | nil => exact absurd htl hne.1
        | cons k2 v2 tl2 =>
          cases htl2 : sanitizeFields (setKeyF tl k x) with
          | nil => exact absurd htl2 hne.2
          | cons k3 v3 tl3 =>
            rw [htl] at h1
            rw [htl2] at h2
            refine ⟨quoteStr k' ++ ':' :: stringify (sanitize v') ++ [','] ++ P,
              S, ?_, ?_⟩
            · simp only [stringifyFields]
              rw [h1]
              simp [List.append_assoc]
            · simp only [stringifyFields]
              rw [h2]
              simp [List.append_assoc]
termination_by fs => sizeOf fs

/-- Replacing the element at an index rewrites exactly the corresponding
segment of the rendered element list. -/
theorem stringifyItems_set : ∀ (xs : JsonItems) (i : ℕ) (w x : Json),
    getIdxI xs i = some w →
    ∃ P S, stringifyItems (sanitizeItems xs) =
        P ++ stringify (sanitize w) ++ S ∧
      stringifyItems (sanitizeItems (setIdxI xs i x)) =
        P ++ stringify (sanitize x) ++ S
  | .nil, i, w, x, hg => by simp [getIdxI] at hg
  | .cons hd tl, 0, w, x, hg => by
    simp only [getIdxI, Option.some.injEq] at hg
    subst hg
    simp only [setIdxI, sanitizeItems]
    cases htl : sanitizeItems tl with
    | nil =>
      refine ⟨[], [], ?_, ?_⟩ <;> simp [stringifyItems]
    | cons b bs =>
      refine ⟨[], ',' :: stringifyItems (.cons b bs), ?_, ?_⟩ <;>
        simp [stringifyItems]
  | .cons hd (.cons hd2 tl2), i + 1, w, x, hg => by
    simp only [getIdxI] at hg
    obtain ⟨P, S, h1, h2⟩ := stringifyItems_set (.cons hd2 tl2) i w x hg
    obtain ⟨c, cs, hset⟩ :
        ∃ c cs, setIdxI (.cons hd2 tl2) i x = .cons c cs := by
      cases i <;> exact ⟨_, _, rfl⟩
    rw [hset] at h2
    simp only [setIdxI, sanitizeItems, hset]
    refine ⟨stringify (sanitize hd) ++ [','] ++ P, S, ?_, ?_⟩
    · simp only [stringifyItems]
      rw [show stringifyItems (.cons (sanitize hd2) (sanitizeItems tl2)) =
          P ++ stringify (sanitize w) ++ S from h1]
      simp [List.append_assoc]
    · simp only [stringifyItems]
      rw [show stringifyItems (.cons (sanitize c) (sanitizeItems cs)) =
          P ++ stringify (sanitize x) ++ S from h2]
      simp [List.append_assoc]
  | .cons hd .nil, i + 1, w, x, hg => by simp [getIdxI] at hg
termination_by xs => sizeOf xs

/-- Replacing a subnode along a non-banned path by one with a different
signature changes the whole node's signature. -/
theorem replace_sig_ne : ∀ (p : List PathElem) (a v v0 b : Json),
    pathKeysOk p = true → getAt a p = some v0 → replaceAt a p v = some b →
    nodeSignature v ≠ nodeSignature v0 → nodeSignature b ≠ nodeSignature a := by
  intro p
  induction p with
  | nil =>
    intro a v v0 b _ hg hr hne
    simp only [getAt, Option.some.injEq] at hg
    simp only [replaceAt, Option.some.injEq] at hr
    subst hg
    subst hr
    exact hne
  | cons el p IH =>
    intro a v v0 b hk hg hr hne
    cases el with
    | key k =>
      cases a with
      | jnull => simp [getAt] at hg
      | jbool b2 => simp [getAt] at hg
      | jnum n => simp [getAt] at hg
      | jstr s => simp [getAt] at hg
      | jarr xs => simp [getAt] at hg
      | jobj fs =>
        simp only [getAt] at hg
        simp only [replaceAt] at hr
        cases hw : getKeyF fs k with
        | none => simp [hw] at hg
        | some w =>
          simp only [hw] at hg hr
          cases hr' : replaceAt w p v with
          | none => simp [hr'] at hr
          | some w' =>
            simp only [hr', Option.some.injEq] at hr
            subst hr
            simp only [pathKeysOk, Bool.and_eq_true, Bool.not_eq_true'] at hk
            obtain ⟨hbk, hkp⟩ := hk
            have hih := IH w v v0 w' hkp hg hr' hne
            obtain ⟨P, S, h1, h2⟩ := stringifyFields_set fs k w w' hbk hw
            intro heq
            simp only [nodeSignature, sanitize, stringify] at heq
            rw [h1, h2] at heq
            have heq2 := (List.cons.injEq _ _ _ _).mp heq |>.2
            have heq3 := List.append_cancel_right heq2
            have heq4 :=
              List.append_cancel_left (List.append_cancel_right heq3)
            exact hih heq4
    | idx i =>
      cases a with
      | jnull => simp [getAt] at hg
      | jbool b2 => simp [getAt] at hg
      | jnum n => simp [getAt] at hg
      | jstr s => simp [getAt] at hg
      | jobj fs => simp [getAt] at hg
      | jarr xs =>
        simp only [getAt] at hg
        simp only [replaceAt] at hr
        cases hw : getIdxI xs i with
        | none => simp [hw] at hg
        | some w =>
          simp only [hw] at hg hr
          cases hr' : replaceAt w p v with
          | none => simp [hr'] at hr
          | some w' =>
            simp only [hr', Option.some.injEq] at hr
            subst hr
            simp only [pathKeysOk] at hk
            have hih := IH w v v0 w' hk hg hr' hne
            obtain ⟨P, S, h1, h2⟩ := stringifyItems_set xs i w w' hw
            intro heq
            simp only [nodeSignature, sanitize, stringify] at heq
            rw [h1, h2] at heq
            have heq2 := (List.cons.injEq _ _ _ _).mp heq |>.2
            have heq3 := List.append_cancel_right heq2
            have heq4 :=
              List.append_cancel_left (List.append_cancel_right heq3)
            exact hih heq4

/-- C5: `nodeSignature` (`JSON.stringify` of `sanitizeForSignature`) maps
shape-identical nodes — equal up to the position/range/comment-attachment
fields dropped by the sanitizer — to equal signatures; replacing a subnode
reached through non-dropped keys by one with a different signature (in
particular, changing a literal or operator string) changes the signature;
and distinct literal strings always have distinct signatures. -/
theorem c5_node_signature :
    (∀ a b : Json, sameShape a b = true → nodeSignature a = nodeSignature b) ∧
    (∀ (p : List PathElem) (a v v0 b : Json), pathKeysOk p = true →
      getAt a p = some v0 → replaceAt a p v = some b →
      nodeSignature v ≠ nodeSignature v0 →
      nodeSignature b ≠ nodeSignature a) ∧
    (∀ s t : List Char, s ≠ t →
      nodeSignature (.jstr s) ≠ nodeSignature (.jstr t)) := by
  refine ⟨?_, replace_sig_ne, ?_⟩
  · intro a b h
    exact congrArg stringify ((shapeAux (sizeOf a + sizeOf b)).1 a b le_rfl h)
  · intro s t hne heq
    exact hne (quoteStr_injective heq)

/-- C5 witness: two binary-expression nodes differing only in `start` share a
signature; flipping the operator from `+` to `-` changes it. -/
theorem c5_witness :
    (sameShape (c5NodeOf 0 ['+']) (c5NodeOf 7 ['+']) = true ∧
      nodeSignature (c5NodeOf 0 ['+']) = nodeSignature (c5NodeOf 7 ['+'])) ∧
    (pathKeysOk c5Path = true ∧
      getAt (c5NodeOf 0 ['+']) c5Path = some (.jstr ['+']) ∧
      replaceAt (c5NodeOf 0 ['+']) c5Path (.jstr ['-']) =
        some (c5NodeOf 0 ['-']) ∧
      nodeSignature (Json.jstr ['-']) ≠ nodeSignature (Json.jstr ['+']) ∧
      nodeSignature (c5NodeOf 0 ['-']) ≠ nodeSignature (c5NodeOf 0 ['+'])) ∧
    ((['a'] : List Char) ≠ ['b'] ∧
      nodeSignature (Json.jstr ['a']) ≠ nodeSignature (Json.jstr ['b'])) := by
  have hb1 : bannedKey "type".data = false := by decide
  have hb2 : bannedKey "start".data = true := by decide
  have hb3 : bannedKey "operator".data = false := by decide
  have hshape : sameShape (c5NodeOf 0 ['+']) (c5NodeOf 7 ['+']) = true := by
    simp [c5NodeOf, sameShape, sameShapeFields, sameShapeItems, hb1, hb2, hb3]
  have hp : pathKeysOk c5Path = true := by decide
  have hg : getAt (c5NodeOf 0 ['+']) c5Path = some (.jstr ['+']) := rfl
  have hr : replaceAt (c5NodeOf 0 ['+']) c5Path (.jstr ['-']) =
      some (c5NodeOf 0 ['-']) := rfl
  have hnel : nodeSignature (Json.jstr ['-']) ≠ nodeSignature (Json.jstr ['+']) :=
    by decide
  have hab : (['a'] : List Char) ≠ ['b'] := by decide
  exact ⟨⟨hshape, c5_node_signature.1 _ _ hshape⟩,
    ⟨hp, hg, hr, hnel,
      c5_node_signature.2.1 c5Path _ _ _ _ hp hg hr hnel⟩,
    ⟨hab, c5_node_signature.2.2 _ _ hab⟩⟩
